import Mathlib

/-!
Verification of the field-and-block state-management layer of the
genesis-custom-blocks repository (the `useField` mutation engine in
`src/unnamed/part_000`) against its natural-language specification.

The engine operates on JavaScript objects.  We embed them shallowly:

* a JS object whose keys are field identifiers becomes an association
  list `List (String × Field)` preserving insertion order (JS objects
  preserve insertion order of string keys);
* property assignment replaces an existing key in place or appends a
  fresh key at the end, exactly like JS;
* `delete` removes a key;
* absent attributes are `Option.none`;
* a thrown `TypeError` (e.g. reading a property of `undefined`) is
  modelled as `Except.error`;
* the open-ended bag of control-specific settings of a field is a
  `List (String × String)` association list.

Helper functions that the engine imports (`getNewFieldNumber`,
`setCorrectOrderForFields`, `getFieldsAsArray`, `getFieldsAsObject`,
`getSettingsDefaults`, `getOtherLocation`, `DEFAULT_LOCATION`) are not
part of the provided source tree; they are modelled from the
specification (sections 4.1 to 4.6) and marked as such.
-/

namespace GCB

/-- The open-ended bag of control-specific settings of a field. -/
abbrev Settings := List (String × String)

/-- The named attributes of a field, apart from its nested sub-fields.
`ftype` embeds the JS attribute `type`; `location`, `parent` and
`uniqueId` may be absent (`none`).  `settings` is the bag of
control-specific settings (help text, placeholder, ...). -/
structure FieldAttrs where
  name : String := ""
  label : String := ""
  control : String := ""
  ftype : String := ""
  location : Option String := none
  order : Nat := 0
  parent : Option String := none
  uniqueId : Option String := none
  settings : Settings := []
deriving DecidableEq, Repr

/-- A field: its flat attributes together with an optional `sub_fields`
collection (present only on repeater fields).  The collection is an
association list from storage key to field, as a JS object. -/
inductive Field : Type where
  | mk (attrs : FieldAttrs) (subFields : Option (List (String × Field)))

/-- A field collection: a JS object keyed by field identifier. -/
abbrev Fields := List (String × Field)

def Field.attrs : Field → FieldAttrs
  | .mk a _ => a

def Field.subFields : Field → Option Fields
  | .mk _ s => s

def Field.name (f : Field) : String := f.attrs.name

def Field.label (f : Field) : String := f.attrs.label

def Field.control (f : Field) : String := f.attrs.control

def Field.ftype (f : Field) : String := f.attrs.ftype

def Field.location (f : Field) : Option String := f.attrs.location

def Field.order (f : Field) : Nat := f.attrs.order

def Field.parent (f : Field) : Option String := f.attrs.parent

def Field.uniqueId (f : Field) : Option String := f.attrs.uniqueId

def Field.settings (f : Field) : Settings := f.attrs.settings

/-- Replace the `order` attribute of a field. -/
def Field.withOrder (f : Field) (n : Nat) : Field :=
  .mk { f.attrs with order := n } f.subFields

/-- Replace the `parent` attribute of a field. -/
def Field.withParent (f : Field) (p : Option String) : Field :=
  .mk { f.attrs with parent := p } f.subFields

/-- Replace the `sub_fields` attribute of a field. -/
def Field.withSubFields (f : Field) (s : Option Fields) : Field :=
  .mk f.attrs s

/-- JS property assignment on an object: replace the first occurrence of
the key in place, or append the key at the end if it is fresh. -/
def setKey {α : Type} : List (String × α) → String → α → List (String × α)
  | [], k, v => [(k, v)]
  | (k', v') :: rest, k, v =>
    if k' = k then (k, v) :: rest else (k', v') :: setKey rest k v

/-- JS `delete` on an object: remove the (first occurrence of the) key. -/
def delKey {α : Type} : List (String × α) → String → List (String × α)
  | [], _ => []
  | (k', v') :: rest, k =>
    if k' = k then rest else (k', v') :: delKey rest k

/-- The keys of a JS object. -/
def keysOf {α : Type} (l : List (String × α)) : List String := l.map Prod.fst

/-! ### Decimal rendering of natural numbers

Models JS `Number.prototype.toString` (base 10) for the template
literals of the source, e.g. `` `new-field-${n}` ``.  We roll our own
structurally recursive version so that it reduces by `decide`/`rfl` and
so that injectivity is provable. -/

/-- Digits of `n`, least significant first, with explicit fuel
(`fuel ≥ n` suffices).  `0` yields `[]`. -/
def digitsRevCore : Nat → Nat → List Nat
  | 0, _ => []
  | _ + 1, 0 => []
  | fuel + 1, n + 1 => ((n + 1) % 10) :: digitsRevCore fuel ((n + 1) / 10)

/-- A decimal digit as a character; values `≥ 10` never occur. -/
def digitChar10 (d : Nat) : Char :=
  match d with
  | 0 => '0' | 1 => '1' | 2 => '2' | 3 => '3' | 4 => '4'
  | 5 => '5' | 6 => '6' | 7 => '7' | 8 => '8' | 9 => '9'
  | _ => '*'

/-- Inverse of `digitChar10` on decimal digits. -/
def digitVal10 (c : Char) : Nat :=
  match c with
  | '0' => 0 | '1' => 1 | '2' => 2 | '3' => 3 | '4' => 4
  | '5' => 5 | '6' => 6 | '7' => 7 | '8' => 8 | '9' => 9
  | _ => 0

/-- Decimal rendering of a natural number, as JS `toString`. -/
def natStr (n : Nat) : String :=
  if n = 0 then "0"
  else String.mk (((digitsRevCore n n).map digitChar10).reverse)

/-- Recombine a least-significant-first digit list into a number. -/
def ofDigitsRev : List Nat → Nat
  | [] => 0
  | d :: rest => d + 10 * ofDigitsRev rest

/-- Decode a string produced by `natStr` back to its number. -/
def natStrVal (s : String) : Nat :=
  ofDigitsRev (s.data.reverse.map digitVal10)

/-! ### JS property read -/

/-- JS property read on an object: the value at the key, or `none`
(undefined) when the key is absent. -/
def getKey {α : Type} : List (String × α) → String → Option α
  | [], _ => none
  | (k', v) :: rest, k => if k' = k then some v else getKey rest k

/-- JS object-spread update: apply every pair of `upd` to `base` by
property assignment (later keys win). -/
def setAll {α : Type} (base upd : List (String × α)) : List (String × α) :=
  upd.foldl (fun acc p => setKey acc p.1 p.2) base

/-! ### Spec-modelled helpers

The helper module of the repository is not under `src/`; the following
definitions are modelled from the specification. -/

/-- Modelled from the spec: the default placement bucket for fields
lacking an explicit location (`DEFAULT_LOCATION` in `../constants`). -/
def DEFAULT_LOCATION : String := "editor"

/-- Modelled from the spec (4.4): the complementary location in the
two-location system editor/inspector (`getOtherLocation`). -/
def getOtherLocation (location : String) : String :=
  if location = "editor" then "inspector" else "editor"

/-- JS falsiness of an optional string attribute: absent or empty. -/
def strFalsy (o : Option String) : Bool :=
  match o with
  | none => true
  | some s => s = ""

/-- The filter of `getFieldsForLocation` from the source: a field is in
the queried location when the query strictly equals its `location`, or
when its `location` is falsy and the query is the default location. -/
def locMatches (query : Option String) (f : Field) : Bool :=
  query = f.location || (strFalsy f.location && query = some DEFAULT_LOCATION)

/-- A control descriptor of the externally supplied registry: its
`name`, its stored-value type (JS attribute `type`, embedded as
`ftype`) and its declared default settings. -/
structure Control where
  name : String
  ftype : String
  defaults : Settings
deriving DecidableEq, Repr

/-- The control-type registry, keyed by control identifier. -/
abbrev Controls := List (String × Control)

/-- Modelled from the spec (4.6): `getSettingsDefaults` looks up the
control descriptor and returns its declared default settings; an
unknown control name degrades to no defaults. -/
def getSettingsDefaults (controlName : String) (controls : Controls) : Settings :=
  match getKey controls controlName with
  | some c => c.defaults
  | none => []

/-- The reserved field attribute names, those the engine sets
explicitly when it builds a field literal over spread defaults. -/
def reservedAttrKeys : List String :=
  ["name", "label", "control", "type", "location", "order", "parent",
   "sub_fields", "uniqueId"]

/-- Drop reserved attribute names from a default-settings bag.  The
engine's field literals spread the resolver defaults first and then
write the reserved attributes, so reserved keys in a defaults bag never
survive into the settings bag of a built field.  (Control registries do
not declare reserved keys as defaults.) -/
def stripReserved (bag : Settings) : Settings :=
  bag.filter (fun p => !(reservedAttrKeys.contains p.1))

/-- Modelled from the spec (4.2): the ordering normalizer sets each
field's `order` to its position, from `start`. -/
def setOrdersFrom : Nat → List Field → List Field
  | _, [] => []
  | i, f :: rest => f.withOrder i :: setOrdersFrom (i + 1) rest

/-- Modelled from the spec (4.2): `setCorrectOrderForFields` returns a
new sequence with each field's `order` set to its index. -/
def setCorrectOrderForFields (fields : List Field) : List Field :=
  setOrdersFrom 0 fields

/-- Stable insertion by `order`: the inserted field goes after every
already placed field of smaller or equal `order`. -/
def insertByOrder (f : Field) : List Field → List Field
  | [] => [f]
  | g :: rest =>
    if g.order ≤ f.order then g :: insertByOrder f rest else f :: g :: rest

/-- Stable insertion sort of fields by their `order` attribute. -/
def sortByOrder (l : List Field) : List Field :=
  l.foldl (fun acc f => insertByOrder f acc) []

/-- Modelled from the spec (4.1 `toSequence`): `getFieldsAsArray`
flattens the keys away; the sequence follows each field's `order`
attribute (stable sort). -/
def getFieldsAsArray (fields : Fields) : List Field :=
  sortByOrder (fields.map Prod.snd)

/-- The storage key `toMapping` uses for a field: `uniqueId`, falling
back to `name` when `uniqueId` is falsy (absent or empty). -/
def fieldKey (f : Field) : String :=
  match f.uniqueId with
  | some u => if u = "" then f.name else u
  | none => f.name

/-- Modelled from the spec (4.1 `toMapping`): `getFieldsAsObject` keys
the result by each field's `uniqueId` falling back to `name`, dropping
fields lacking any identifier. -/
def getFieldsAsObject (fields : List Field) : Fields :=
  fields.foldl
    (fun acc f => if fieldKey f = "" then acc else setKey acc (fieldKey f) f) []

/-- The identifier with a numeric suffix: `base-n` in decimal. -/
def suffixStr (base : String) (n : Nat) : String :=
  base ++ "-" ++ natStr n

/-- Search upwards from `n` for a suffix number whose suffixed
identifier is not a key; the fuel bounds the search. -/
def findFree (keys : List String) (base : String) : Nat → Nat → Nat
  | 0, n => n
  | fuel + 1, n =>
    if keys.contains (suffixStr base n) then findFree keys base fuel (n + 1)
    else n

/-- Modelled from the spec (4.3): the identifier allocator
`getNewFieldNumber` scans the existing keys; it returns the falsy
sentinel `0` when the base itself is free, and otherwise the smallest
integer `≥ 2` whose suffixed identifier `base-n` is unused.  A fuel of
`keys.length + 1` always suffices to find a free suffix. -/
def getNewFieldNumber (fields : Fields) (base : String) : Nat :=
  let keys := keysOf fields
  if keys.contains base then findFree keys base (keys.length + 1) 2 else 0

/-- The storage key the rename step allocates from a desired name: the
name itself when free, otherwise the name with the allocated numeric
suffix (`newFieldUniqueId` in the source). -/
def allocatedKey (fields : Fields) (base : String) : String :=
  let n := getNewFieldNumber fields base
  if n ≠ 0 then suffixStr base n else base

/-! ### The data model of the engine -/

/-- The block: its namespaced `name` and its field collection; the
collection is absent (`none`) when the JS attribute is undefined.
Block-level metadata outside the core's concern is not embedded.  The
legacy empty-array representation of `fields` is outside the embedded
state space (the source immediately coerces it to an empty mapping). -/
structure Block where
  name : String := ""
  fields : Option Fields := none

/-- The selected-field reference handed in by the UI:
`{ uniqueId, name, parent? }`.  `parent` being `some` models the own
property being present (`hasOwnProperty`). -/
structure SelectedField where
  uniqueId : String := ""
  name : String := ""
  parent : Option String := none
deriving DecidableEq, Repr

/-- The `newSettings` argument of `changeFieldSettings`: an open bag in
JS; the engine special-cases `location` and `name` (present iff the
object has the own property), `label` stands for any merged known
attribute, and `extra` is the rest of the bag. -/
structure NewSettings where
  location : Option String := none
  name : Option String := none
  label : Option String := none
  extra : Settings := []
deriving DecidableEq, Repr

/-- The empty JS object `{}` seen as a field (spreading it contributes
no attributes; absent attributes are the model defaults). -/
def blankField : Field := Field.mk {} none

/-- Shallow merge `{ ...currentField, ...newSettings }` of
`changeFieldSettings`: keys present in `newSettings` win. -/
def mergeNewSettings (f : Field) (s : NewSettings) : Field :=
  Field.mk
    { f.attrs with
      location := match s.location with | some l => some l | none => f.attrs.location,
      name := match s.name with | some n => n | none => f.attrs.name,
      label := match s.label with | some l => l | none => f.attrs.label,
      settings := setAll f.attrs.settings s.extra }
    f.subFields

/-- The result of `getField`: the empty object `{}`, JS `undefined`
(the key was absent), or the field. -/
inductive GetFieldResult : Type where
  | emptyObj : GetFieldResult
  | undef : GetFieldResult
  | found : Field → GetFieldResult

/-! ### The field mutation engine, translated from `src/unnamed/part_000`

Each operation returns `Except String _`; `Except.error` models a
thrown JS `TypeError` (reading or writing a property of `undefined`,
or calling a method of `null`). -/

/-- `addNewField` (source lines 71-125): allocates a fresh identifier
scoped to the sibling collection, builds a new field over the resolver
defaults for the default control `text`, sets `order` to the sibling
collection's size, inserts it, and returns the updated block together
with the new field name. -/
def addNewField (controls : Controls) (block : Block) (location : String)
    (parentField : Option String) : Except String (Block × String) :=
  let fields0 : Fields := block.fields.getD []
  let fields1 : Fields :=
    match parentField with
    | some p =>
      match getKey fields0 p with
      | some pf =>
        if pf.subFields.isNone then setKey fields0 p (pf.withSubFields (some []))
        else fields0
      | none => fields0
    | none => fields0
  match parentField with
  | some p =>
    match getKey fields1 p with
    | none => .error ("TypeError")
    | some pf =>
      match pf.subFields with
      | none => .error ("TypeError")
      | some subs =>
        let n := getNewFieldNumber subs ("new-field")
        let newFieldName := if n ≠ 0 then suffixStr ("new-field") n else "new-field"
        let label := if n ≠ 0 then "New Field " ++ natStr n else "New Field"
        let newField : Field := Field.mk
          { name := newFieldName, label := label, control := "text",
            ftype := "string", location := some location, order := subs.length,
            parent := some p, uniqueId := none,
            settings := stripReserved (getSettingsDefaults ("text") controls) }
          none
        let fields2 :=
          setKey fields1 p (pf.withSubFields (some (setKey subs newFieldName newField)))
        .ok ({ block with fields := some fields2 }, newFieldName)
  | none =>
    let n := getNewFieldNumber fields1 ("new-field")
    let newFieldName := if n ≠ 0 then suffixStr ("new-field") n else "new-field"
    let label := if n ≠ 0 then "New Field " ++ natStr n else "New Field"
    let newField : Field := Field.mk
      { name := newFieldName, label := label, control := "text",
        ftype := "string", location := some location, order := fields1.length,
        parent := none, uniqueId := none,
        settings := stripReserved (getSettingsDefaults ("text") controls) }
      none
    .ok ({ block with fields := some (setKey fields1 newFieldName newField) }, newFieldName)

/-- `changeControl` (source lines 133-163): a no-op when the control is
unregistered or the selector's name is falsy; otherwise replaces the
field with a fresh one over the new control's resolver defaults,
carrying over `name`, `label`, `location`, `order` (and `parent` for
nested fields) and setting `control` and `type` from the registry. -/
def changeControl (controls : Controls) (block : Block)
    (fieldToChange : SelectedField) (newControlName : String) :
    Except String Block :=
  match getKey controls newControlName with
  | none => .ok block
  | some newControl =>
    if fieldToChange.name = "" then .ok block
    else
      match block.fields with
      | none => .error ("TypeError")
      | some flds =>
        match fieldToChange.parent with
        | some p =>
          match getKey flds p with
          | none => .error ("TypeError")
          | some pf =>
            match pf.subFields with
            | none => .error ("TypeError")
            | some subs =>
              match getKey subs fieldToChange.name with
              | none => .error ("TypeError")
              | some previousField =>
                let newField : Field := Field.mk
                  { name := previousField.name, label := previousField.label,
                    control := newControl.name, ftype := newControl.ftype,
                    location := previousField.location,
                    order := previousField.order, parent := some p,
                    uniqueId := none,
                    settings := stripReserved (getSettingsDefaults newControl.name controls) }
                  none
                let flds2 := setKey flds p (pf.withSubFields (some (setKey subs fieldToChange.name newField)))
                .ok { block with fields := some flds2 }
        | none =>
          match getKey flds fieldToChange.name with
          | none => .error ("TypeError")
          | some previousField =>
            let newField : Field := Field.mk
              { name := previousField.name, label := previousField.label,
                control := newControl.name, ftype := newControl.ftype,
                location := previousField.location,
                order := previousField.order, parent := none,
                uniqueId := none,
                settings := stripReserved (getSettingsDefaults newControl.name controls) }
              none
            .ok { block with fields := some (setKey flds fieldToChange.name newField) }

/-- `changeFieldName` (source lines 177-199): allocates the new storage
key from the new name, rewrites every sub-field's `parent` to the new
name when the renamed field owns `sub_fields`, inserts the renamed
field under the new key (`{ ...fieldToRename, name, uniqueId }`; a
missing old key spreads `undefined`, yielding a field holding only the
two written attributes), and deletes the old key. -/
def changeFieldName (fields : Fields) (previousUniqueId newName : String) :
    Fields :=
  let newFieldUniqueId := allocatedKey fields newName
  match getKey fields previousUniqueId with
  | some fieldToRename =>
    match fieldToRename.subFields with
    | some subs =>
      let updated := fieldToRename.withSubFields
        (some (getFieldsAsObject
          ((subs.map Prod.snd).map (fun sf => sf.withParent (some newName)))))
      let newFields1 := setKey fields previousUniqueId updated
      let newFields2 := setKey newFields1 newFieldUniqueId
        (Field.mk { updated.attrs with name := newName, uniqueId := some newFieldUniqueId }
          updated.subFields)
      delKey newFields2 previousUniqueId
    | none =>
      let newFields2 := setKey fields newFieldUniqueId
        (Field.mk { fieldToRename.attrs with name := newName, uniqueId := some newFieldUniqueId }
          fieldToRename.subFields)
      delKey newFields2 previousUniqueId
  | none =>
    let newFields2 := setKey fields newFieldUniqueId
      (Field.mk { name := newName, uniqueId := some newFieldUniqueId } none)
    delKey newFields2 previousUniqueId

/-- `getFieldsForLocation` (source lines 208-221): `null` when the
block has no field collection or the parent's `sub_fields` is absent; a
thrown `TypeError` when the named parent does not exist; otherwise the
collection as an ordered sequence filtered by location. -/
def getFieldsForLocation (block : Block) (query : Option String)
    (parentField : Option String) : Except String (Option (List Field)) :=
  match block.fields with
  | none => .ok none
  | some flds =>
    match parentField with
    | none => .ok (some ((getFieldsAsArray flds).filter (locMatches query)))
    | some p =>
      match getKey flds p with
      | none => .error ("TypeError")
      | some pf =>
        match pf.subFields with
        | none => .ok none
        | some subs =>
          .ok (some ((getFieldsAsArray subs).filter (locMatches query)))

/-- `changeFieldLocation` (source lines 230-246): removes the field
from its previous location's top-level sequence, appends it to the new
location's sequence, normalizes both, and merges them back into a
collection.  `fields` is the collection passed by the caller (the same
object the `block` closure reads). -/
def changeFieldLocation (block : Block) (fields : Option Fields)
    (selectedField : SelectedField) (newLocation : String) :
    Except String Fields :=
  match fields with
  | none => .error ("TypeError")
  | some flds =>
    match getKey flds selectedField.name with
    | none => .error ("TypeError")
    | some fieldToMove =>
      let previousLocation := fieldToMove.location
      match getFieldsForLocation block previousLocation none with
      | .error e => .error e
      | .ok none => .error ("TypeError")
      | .ok (some previousLocationFields) =>
        let fieldsWithoutMovedField := previousLocationFields.filter
          (fun f => f.name ≠ selectedField.name)
        match getFieldsForLocation block (some newLocation) none with
        | .error e => .error e
        | .ok none => .error ("TypeError")
        | .ok (some newLocationFields0) =>
          let newLocationFields := newLocationFields0 ++ [fieldToMove]
          .ok (getFieldsAsObject
            (setCorrectOrderForFields fieldsWithoutMovedField
              ++ setCorrectOrderForFields newLocationFields))

/-- `changeFieldSettings` (source lines 254-298): runs the location
move whenever `newSettings` has the own property `location`, shallow
merges `newSettings` onto the field looked up by `uniqueId`, and runs
the rename whenever `newSettings` has the own property `name`. -/
def changeFieldSettings (block : Block) (fieldToChange : SelectedField)
    (newSettings : NewSettings) : Except String Block :=
  let afterMove : Except String (Option Fields) :=
    match newSettings.location with
    | some newLocation =>
      match changeFieldLocation block block.fields fieldToChange newLocation with
      | .error e => .error e
      | .ok moved => .ok (some moved)
    | none => .ok block.fields
  match afterMove with
  | .error e => .error e
  | .ok fieldsAfterMove =>
    match fieldToChange.parent with
    | some p =>
      match fieldsAfterMove with
      | none => .error ("TypeError")
      | some flds =>
        match getKey flds p with
        | none => .error ("TypeError")
        | some pf =>
          match pf.subFields with
          | none => .error ("TypeError")
          | some subs =>
            let currentField := getKey subs fieldToChange.uniqueId
            let newField := mergeNewSettings (currentField.getD blankField) newSettings
            let subs2 := setKey subs fieldToChange.uniqueId newField
            let flds2 := setKey flds p (pf.withSubFields (some subs2))
            let flds3 :=
              match newSettings.name with
              | some newName =>
                setKey flds2 p
                  (pf.withSubFields (some (changeFieldName subs2 fieldToChange.uniqueId newName)))
              | none => flds2
            .ok { block with fields := some flds3 }
    | none =>
      match fieldsAfterMove with
      | none => .error ("TypeError")
      | some flds =>
        let currentField := getKey flds fieldToChange.uniqueId
        let newField := mergeNewSettings (currentField.getD blankField) newSettings
        let flds2 := setKey flds fieldToChange.uniqueId newField
        let flds3 :=
          match newSettings.name with
          | some newName => changeFieldName flds2 fieldToChange.uniqueId newName
          | none => flds2
        .ok { block with fields := some flds3 }

/-- `deleteField` (source lines 305-318): removes the field from the
parent's `sub_fields` when the selector has a parent that exists with
`sub_fields`, and from the top-level collection otherwise. -/
def deleteField (block : Block) (selectedField : SelectedField) :
    Except String Block :=
  match block.fields with
  | none => .error ("TypeError")
  | some flds =>
    match selectedField.parent with
    | some p =>
      match getKey flds p with
      | some pf =>
        match pf.subFields with
        | some subs =>
          let flds2 := setKey flds p (pf.withSubFields (some (delKey subs selectedField.name)))
          .ok { block with fields := some flds2 }
        | none => .ok { block with fields := some (delKey flds selectedField.name) }
      | none => .ok { block with fields := some (delKey flds selectedField.name) }
    | none => .ok { block with fields := some (delKey flds selectedField.name) }

/-- `getField` (source lines 326-336): the empty object when the
selector is absent, its `uniqueId` falsy, or the block has no field
collection; otherwise the field under the selector (through the
parent's `sub_fields` when `parent` is truthy), `undefined` when the
key is absent, and a thrown `TypeError` when the parent is missing or
has no `sub_fields`. -/
def getField (block : Block) (selectedField : Option SelectedField) :
    Except String GetFieldResult :=
  match selectedField with
  | none => .ok .emptyObj
  | some sf =>
    if sf.uniqueId = "" then .ok .emptyObj
    else
      match block.fields with
      | none => .ok .emptyObj
      | some flds =>
        match sf.parent with
        | some p =>
          if p = "" then
            .ok (match getKey flds sf.uniqueId with
                 | some f => .found f
                 | none => .undef)
          else
            match getKey flds p with
            | none => .error ("TypeError")
            | some pf =>
              match pf.subFields with
              | none => .error ("TypeError")
              | some subs =>
                .ok (match getKey subs sf.uniqueId with
                     | some f => .found f
                     | none => .undef)
        | none =>
          .ok (match getKey flds sf.uniqueId with
               | some f => .found f
               | none => .undef)

/-- `duplicateField` (source lines 343-368): clones the selected field
under the identifier `name-n` allocated from the original `name`
(JS throws when the allocator returns the falsy sentinel: the source
calls `toString` on it unconditionally), and sets the clone's `order`
to the size of the top-level collection. -/
def duplicateField (block : Block) (selectedField : SelectedField) :
    Except String Block :=
  let fields0 : Fields := block.fields.getD []
  match getField block (some selectedField) with
  | .error e => .error e
  | .ok gf =>
    let currentField : Field :=
      match gf with
      | .found f => f
      | _ => blankField
    match selectedField.parent with
    | some p =>
      match getKey fields0 p with
      | none => .error ("TypeError")
      | some pf =>
        match pf.subFields with
        | none => .error ("TypeError")
        | some subs =>
          let n := getNewFieldNumber subs selectedField.name
          if n = 0 then .error ("TypeError")
          else
            let newFieldName := suffixStr selectedField.name n
            let clone := Field.mk
              { currentField.attrs with name := newFieldName, order := fields0.length }
              currentField.subFields
            let flds2 := setKey fields0 p (pf.withSubFields (some (setKey subs newFieldName clone)))
            .ok { block with fields := some flds2 }
    | none =>
      let n := getNewFieldNumber fields0 selectedField.name
      if n = 0 then .error ("TypeError")
      else
        let newFieldName := suffixStr selectedField.name n
        let clone := Field.mk
          { currentField.attrs with name := newFieldName, order := fields0.length }
          currentField.subFields
        .ok { block with fields := some (setKey fields0 newFieldName clone) }

/-- Pairwise exchange of two positions of a list.  Out-of-range JS
indices create sparse arrays outside the embedded state space; the
claims only concern valid indices, on which this is the JS swap. -/
def swapAt (l : List Field) (i j : Nat) : List Field :=
  match l[i]?, l[j]? with
  | some fi, some fj => (l.set i fj).set j fi
  | _, _ => l

/-- `reorderFields` (source lines 378-400): swaps the two positions of
the location's ordered sequence, re-normalizes it, and merges it back;
scoped to a parent it overwrites the parent's `sub_fields`, and at top
level it appends the complementary location's fields unchanged. -/
def reorderFields (block : Block) (moveFrom moveTo : Nat)
    (currentLocation : String) (parentField : Option String) :
    Except String Block :=
  match getFieldsForLocation block (some currentLocation) parentField with
  | .error e => .error e
  | .ok none => .error ("TypeError")
  | .ok (some fieldsToReorder) =>
    if fieldsToReorder.length = 0 then .ok block
    else
      let newFields := swapAt fieldsToReorder moveFrom moveTo
      match parentField with
      | some p =>
        match block.fields with
        | none => .error ("TypeError")
        | some flds =>
          match getKey flds p with
          | none => .error ("TypeError")
          | some pf =>
            let flds2 := setKey flds p (pf.withSubFields (some (getFieldsAsObject (setCorrectOrderForFields newFields))))
            .ok { block with fields := some flds2 }
      | none =>
        match getFieldsForLocation block (some (getOtherLocation currentLocation)) none with
        | .error e => .error e
        | .ok none => .error ("TypeError")
        | .ok (some otherFields) =>
          let flds2 := getFieldsAsObject (setCorrectOrderForFields newFields ++ otherFields)
          .ok { block with fields := some flds2 }

/-! ### Well-formedness and concrete instances

`wfFields` is the ordinary state of a persisted collection: keys are
distinct and every field is stored under its own `uniqueId`, which
equals its `name`.  The concrete blocks below instantiate theorems with
hypotheses and exhibit counterexamples. -/

/-- A collection in the ordinary persisted state: distinct keys, every
field keyed by its own `uniqueId`, which equals its `name` and is not
empty. -/
def wfFields (flds : Fields) : Prop :=
  (keysOf flds).Nodup ∧
  ∀ p ∈ flds, (p.2 : Field).uniqueId = some p.1 ∧
    (p.2 : Field).name = p.1 ∧ p.1 ≠ ""

instance (flds : Fields) : Decidable (wfFields flds) := by
  unfold wfFields
  infer_instance

/-- A sample `text` control for the registry. -/
def textControl : Control :=
  { name := "text", ftype := "string", defaults := [("placeholder", "")] }

/-- A sample `textarea` control for the registry. -/
def textareaControl : Control :=
  { name := "textarea", ftype := "textarea",
    defaults := [("placeholder", ""), ("maxlength", "4")] }

/-- A sample control registry. -/
def sampleControls : Controls :=
  [("text", textControl), ("textarea", textareaControl)]

/-- A plain field in the ordinary persisted state. -/
def plainField (nm : String) (loc : Option String) (ord : Nat) : Field :=
  Field.mk { name := nm, uniqueId := some nm, location := loc, order := ord } none

/-- A block with one editor field and one inspector field. -/
def blockTwoLoc : Block :=
  { name := "blk", fields := some
      [("a", plainField ("a") (some ("editor")) 0),
       ("c", plainField ("c") (some ("inspector")) 0)] }

/-- A collection with two editor fields and one inspector field. -/
def abFields : Fields :=
  [("a", plainField ("a") (some ("editor")) 0),
   ("c", plainField ("c") (some ("editor")) 1),
   ("d", plainField ("d") (some ("inspector")) 0)]

/-- A block with two editor fields and one inspector field. -/
def blockAB : Block := { name := "blk", fields := some abFields }

/-- The sub-field collection of the sample repeater. -/
def nestSubs : Fields :=
  [("s", Field.mk
      { name := "s", uniqueId := some ("s"), parent := some ("r"), order := 0 }
      none)]

/-- A repeater field owning one sub-field. -/
def repeaterR : Field :=
  Field.mk
    { name := "r", uniqueId := some ("r"), location := some ("editor"),
      order := 0 }
    (some nestSubs)

/-- A collection with a repeater and two plain fields. -/
def nestFields : Fields :=
  [("r", repeaterR),
   ("t", plainField ("t") (some ("editor")) 1),
   ("u", plainField ("u") (some ("editor")) 2)]

/-- A block with a repeater and two plain fields. -/
def blockNest : Block := { name := "blk", fields := some nestFields }

/-- A collection holding fields named `x` and `x-2`. -/
def xFields : Fields :=
  [("x", plainField ("x") (some ("editor")) 0),
   ("x-2", plainField ("x-2") (some ("editor")) 1)]

/-- A block holding fields named `x` and `x-2`. -/
def blockX : Block := { name := "blk", fields := some xFields }

/-- First sub-field of the two-sub-field repeater. -/
def sub1 : Field :=
  Field.mk
    { name := "s1", uniqueId := some ("s1"), parent := some ("r"),
      location := some ("editor"), order := 0 }
    none

/-- Second sub-field of the two-sub-field repeater. -/
def sub2 : Field :=
  Field.mk
    { name := "s2", uniqueId := some ("s2"), parent := some ("r"),
      location := some ("editor"), order := 1 }
    none

/-- A sub-field collection with two editor sub-fields. -/
def twoSubs : Fields := [("s1", sub1), ("s2", sub2)]

/-- A repeater field owning two sub-fields. -/
def repeater2 : Field :=
  Field.mk
    { name := "r", uniqueId := some ("r"), location := some ("editor"),
      control := "repeater", order := 0 }
    (some twoSubs)

/-- A block holding only the two-sub-field repeater. -/
def blockNest2 : Block :=
  { name := "blk", fields := some [("r", repeater2)] }

/-! ## Theorems

First the lemma kit: decimal rendering, association lists, the
identifier allocator, the normalizer, the sort, and the codec.  Then
one theorem per claim, with witnesses and counterexamples. -/

theorem digitsRevCore_lt_ten {fuel n d : Nat} (h : d ∈ digitsRevCore fuel n) :
    d < 10 := by
  induction fuel generalizing n with
  | zero => simp [digitsRevCore] at h
  | succ fuel ih =>
    match n with
    | 0 => simp [digitsRevCore] at h
    | n + 1 =>
      simp only [digitsRevCore, List.mem_cons] at h
      rcases h with h | h
      · subst h; exact Nat.mod_lt _ (by decide)
      · exact ih h

theorem ofDigitsRev_digitsRevCore {fuel n : Nat} (h : n ≤ fuel) :
    ofDigitsRev (digitsRevCore fuel n) = n := by
  induction fuel generalizing n with
  | zero =>
    have : n = 0 := Nat.le_zero.mp h
    subst this; simp [digitsRevCore, ofDigitsRev]
  | succ fuel ih =>
    match n with
    | 0 => simp [digitsRevCore, ofDigitsRev]
    | n + 1 =>
      have hdiv : (n + 1) / 10 ≤ fuel := by
        have hlt : (n + 1) / 10 < n + 1 :=
          Nat.div_lt_self (Nat.succ_pos n) (by decide)
        omega
      simp only [digitsRevCore, ofDigitsRev, ih hdiv]
      omega

theorem digitVal10_digitChar10 {d : Nat} (h : d < 10) :
    digitVal10 (digitChar10 d) = d := by
  interval_cases d <;> rfl

/-- `natStrVal` is a left inverse of `natStr`. -/
theorem natStrVal_natStr (n : Nat) : natStrVal (natStr n) = n := by
  by_cases h0 : n = 0
  · subst h0; rfl
  · have hdig : ∀ d ∈ digitsRevCore n n, d < 10 := fun _ hd => digitsRevCore_lt_ten hd
    simp only [natStr, h0, if_false, natStrVal]
    rw [List.reverse_reverse, List.map_map]
    have hmap : (digitsRevCore n n).map (digitVal10 ∘ digitChar10) = digitsRevCore n n := by
      have : ∀ (l : List Nat), (∀ d ∈ l, d < 10) →
          l.map (digitVal10 ∘ digitChar10) = l := by
        intro l hl
        induction l with
        | nil => rfl
        | cons d rest ih =>
          simp only [List.map_cons, Function.comp_apply,
            digitVal10_digitChar10 (hl d (List.mem_cons_self d rest)),
            ih (fun e he => hl e (List.mem_cons_of_mem d he))]
      exact this _ hdig
    rw [hmap]
    exact ofDigitsRev_digitsRevCore (Nat.le_refl n)

/-- Decimal rendering is injective. -/
theorem natStr_injective : Function.Injective natStr := by
  intro a b h
  have := natStrVal_natStr a
  rw [h, natStrVal_natStr b] at this
  exact this.symm


/-! ### Association-list lemmas -/

theorem mem_keysOf_of_getKey {α : Type} {l : List (String × α)} {k : String}
    {v : α} (h : getKey l k = some v) : k ∈ keysOf l := by
  induction l with
  | nil => exact absurd h (by simp [getKey])
  | cons p rest ih =>
    rcases p with ⟨a, b⟩
    simp only [getKey] at h
    by_cases hk : a = k
    · simp [keysOf, hk]
    · rw [if_neg hk] at h
      simp only [keysOf, List.map_cons, List.mem_cons]
      exact Or.inr (ih h)

theorem getKey_eq_none_of_not_mem {α : Type} {l : List (String × α)}
    {k : String} (h : k ∉ keysOf l) : getKey l k = none := by
  induction l with
  | nil => rfl
  | cons p rest ih =>
    rcases p with ⟨a, b⟩
    simp only [keysOf, List.map_cons, List.mem_cons] at h
    push_neg at h
    simp only [getKey]
    rw [if_neg (fun hh => h.1 hh.symm)]
    exact ih h.2

theorem getKey_mem {α : Type} {l : List (String × α)} {k : String} {v : α}
    (h : getKey l k = some v) : (k, v) ∈ l := by
  induction l with
  | nil => exact absurd h (by simp [getKey])
  | cons p rest ih =>
    rcases p with ⟨a, b⟩
    simp only [getKey] at h
    by_cases hk : a = k
    · rw [if_pos hk] at h
      have hb : b = v := Option.some.inj h
      subst hb
      subst hk
      exact List.mem_cons_self _ _
    · rw [if_neg hk] at h
      exact List.mem_cons_of_mem _ (ih h)

theorem getKey_setKey_self {α : Type} {l : List (String × α)} {k : String}
    {v : α} : getKey (setKey l k v) k = some v := by
  induction l with
  | nil => simp [setKey, getKey]
  | cons p rest ih =>
    rcases p with ⟨a, b⟩
    simp only [setKey]
    by_cases hk : a = k
    · rw [if_pos hk]
      simp [getKey]
    · rw [if_neg hk]
      simp only [getKey]
      rw [if_neg hk]
      exact ih

theorem getKey_setKey_ne {α : Type} {l : List (String × α)} {k k' : String}
    {v : α} (h : k' ≠ k) : getKey (setKey l k v) k' = getKey l k' := by
  induction l with
  | nil =>
    simp only [setKey, getKey]
    rw [if_neg (fun hh => h hh.symm)]
  | cons p rest ih =>
    rcases p with ⟨a, b⟩
    simp only [setKey]
    by_cases hk : a = k
    · rw [if_pos hk]
      simp only [getKey]
      rw [if_neg (fun hh => h hh.symm), if_neg (fun hh => h (hh.symm.trans hk))]
    · rw [if_neg hk]
      simp only [getKey]
      by_cases hk' : a = k'
      · rw [if_pos hk', if_pos hk']
      · rw [if_neg hk', if_neg hk']
        exact ih

theorem getKey_delKey_ne {α : Type} {l : List (String × α)} {k k' : String}
    (h : k' ≠ k) : getKey (delKey l k) k' = getKey l k' := by
  induction l with
  | nil => rfl
  | cons p rest ih =>
    rcases p with ⟨a, b⟩
    simp only [delKey]
    by_cases hk : a = k
    · rw [if_pos hk]
      simp only [getKey]
      rw [if_neg (fun hh => h (hh.symm.trans hk))]
    · rw [if_neg hk]
      simp only [getKey]
      by_cases hk' : a = k'
      · rw [if_pos hk', if_pos hk']
      · rw [if_neg hk', if_neg hk']
        exact ih

theorem getKey_delKey_self {α : Type} {l : List (String × α)} {k : String}
    (h : (keysOf l).Nodup) : getKey (delKey l k) k = none := by
  induction l with
  | nil => rfl
  | cons p rest ih =>
    rcases p with ⟨a, b⟩
    simp only [keysOf, List.map_cons, List.nodup_cons] at h
    simp only [delKey]
    by_cases hk : a = k
    · rw [if_pos hk]
      apply getKey_eq_none_of_not_mem
      rw [← hk]
      exact h.1
    · rw [if_neg hk]
      simp only [getKey]
      rw [if_neg hk]
      exact ih h.2

theorem setKey_eq_append {α : Type} {l : List (String × α)} {k : String}
    {v : α} (h : k ∉ keysOf l) : setKey l k v = l ++ [(k, v)] := by
  induction l with
  | nil => rfl
  | cons p rest ih =>
    rcases p with ⟨a, b⟩
    simp only [keysOf, List.map_cons, List.mem_cons] at h
    push_neg at h
    simp only [setKey]
    rw [if_neg (fun hh => h.1 hh.symm), List.cons_append]
    exact congrArg (List.cons (a, b)) (ih h.2)

theorem mem_setKey {α : Type} {l : List (String × α)} {k : String} {v : α}
    {p : String × α} (h : p ∈ setKey l k v) : p ∈ l ∨ p = (k, v) := by
  induction l with
  | nil =>
    simp only [setKey, List.mem_singleton] at h
    right
    exact h
  | cons q rest ih =>
    rcases q with ⟨a, b⟩
    simp only [setKey] at h
    by_cases hk : a = k
    · rw [if_pos hk] at h
      rcases List.mem_cons.mp h with h2 | h2
      · right
        exact h2
      · left
        exact List.mem_cons_of_mem _ h2
    · rw [if_neg hk] at h
      rcases List.mem_cons.mp h with h2 | h2
      · left
        rw [h2]
        exact List.mem_cons_self _ _
      · rcases ih h2 with h3 | h3
        · left
          exact List.mem_cons_of_mem _ h3
        · right
          exact h3

/-! ### Identifier-allocator lemmas -/

theorem le_findFree (keys : List String) (base : String) :
    ∀ (fuel start : Nat), start ≤ findFree keys base fuel start := by
  intro fuel
  induction fuel with
  | zero =>
    intro start
    exact Nat.le_refl _
  | succ fuel ih =>
    intro start
    by_cases h : suffixStr base start ∈ keys
    · have heq : findFree keys base (fuel + 1) start
          = findFree keys base fuel (start + 1) := by
        simp [findFree, h]
      rw [heq]
      exact Nat.le_trans (Nat.le_succ _) (ih (start + 1))
    · have heq : findFree keys base (fuel + 1) start = start := by
        simp [findFree, h]
      rw [heq]

theorem findFree_free (keys : List String) (base : String) :
    ∀ (fuel start : Nat),
      (∃ i, i < fuel ∧ suffixStr base (start + i) ∉ keys) →
      suffixStr base (findFree keys base fuel start) ∉ keys := by
  intro fuel
  induction fuel with
  | zero =>
    rintro start ⟨i, hi, _⟩
    exact absurd hi (Nat.not_lt_zero i)
  | succ fuel ih =>
    rintro start ⟨i, hi, hfree⟩
    by_cases h : suffixStr base start ∈ keys
    · have heq : findFree keys base (fuel + 1) start
          = findFree keys base fuel (start + 1) := by
        simp [findFree, h]
      rw [heq]
      apply ih
      match i, hi, hfree with
      | 0, _, hfree =>
        rw [Nat.add_zero] at hfree
        exact absurd h hfree
      | i + 1, hi, hfree =>
        refine ⟨i, by omega, ?_⟩
        rw [show start + 1 + i = start + (i + 1) by omega]
        exact hfree
    · have heq : findFree keys base (fuel + 1) start = start := by
        simp [findFree, h]
      rw [heq]
      exact h

theorem suffixStr_injective (base : String) :
    Function.Injective (suffixStr base) := by
  intro m n h
  apply natStr_injective
  have hd := congrArg String.data h
  simp only [suffixStr, String.data_append] at hd
  have hdc := List.append_cancel_left hd
  exact congrArg String.mk hdc

theorem exists_unused_suffix (keys : List String) (base : String)
    (start : Nat) :
    ∃ i, i < keys.length + 1 ∧ suffixStr base (start + i) ∉ keys := by
  by_contra hall
  push_neg at hall
  have hsub : ((List.range (keys.length + 1)).map
      (fun i => suffixStr base (start + i))) ⊆ keys := by
    intro s hs
    simp only [List.mem_map, List.mem_range] at hs
    obtain ⟨i, hi, rfl⟩ := hs
    exact hall i hi
  have hnodup : ((List.range (keys.length + 1)).map
      (fun i => suffixStr base (start + i))).Nodup := by
    refine List.Nodup.map ?_ (List.nodup_range _)
    intro a b hab
    have := suffixStr_injective base hab
    omega
  have hlen := (hnodup.subperm hsub).length_le
  simp at hlen

theorem getNewFieldNumber_free {fields : Fields} {base : String}
    (h : base ∈ keysOf fields) :
    suffixStr base (getNewFieldNumber fields base) ∉ keysOf fields := by
  have heq : getNewFieldNumber fields base
      = findFree (keysOf fields) base ((keysOf fields).length + 1) 2 := by
    simp [getNewFieldNumber, h]
  rw [heq]
  apply findFree_free
  obtain ⟨i, hi, hfree⟩ := exists_unused_suffix (keysOf fields) base 2
  exact ⟨i, hi, hfree⟩

theorem getNewFieldNumber_pos {fields : Fields} {base : String}
    (h : base ∈ keysOf fields) : 2 ≤ getNewFieldNumber fields base := by
  have heq : getNewFieldNumber fields base
      = findFree (keysOf fields) base ((keysOf fields).length + 1) 2 := by
    simp [getNewFieldNumber, h]
  rw [heq]
  exact le_findFree _ _ _ _

theorem getNewFieldNumber_eq_zero {fields : Fields} {base : String}
    (h : base ∉ keysOf fields) : getNewFieldNumber fields base = 0 := by
  simp [getNewFieldNumber, h]

/-- The key the rename step allocates is never an existing key. -/
theorem allocatedKey_not_mem (fields : Fields) (base : String) :
    allocatedKey fields base ∉ keysOf fields := by
  by_cases h : base ∈ keysOf fields
  · have hpos := getNewFieldNumber_pos h
    have hfree := getNewFieldNumber_free h
    have hne : ¬(getNewFieldNumber fields base = 0) := by omega
    simp only [allocatedKey, ne_eq]
    rw [if_pos hne]
    exact hfree
  · have hz := getNewFieldNumber_eq_zero h
    simp only [allocatedKey, ne_eq]
    rw [if_neg (fun hk => hk hz)]
    exact h

/-! ### Field projection lemmas -/

@[simp] theorem Field.attrs_mk (a : FieldAttrs) (sf : Option Fields) :
    (Field.mk a sf).attrs = a := rfl

@[simp] theorem Field.subFields_mk (a : FieldAttrs) (sf : Option Fields) :
    (Field.mk a sf).subFields = sf := rfl

@[simp] theorem Field.order_withOrder (f : Field) (n : Nat) :
    (f.withOrder n).order = n := rfl

@[simp] theorem Field.name_withOrder (f : Field) (n : Nat) :
    (f.withOrder n).name = f.name := rfl

@[simp] theorem Field.location_withOrder (f : Field) (n : Nat) :
    (f.withOrder n).location = f.location := rfl

@[simp] theorem Field.uniqueId_withOrder (f : Field) (n : Nat) :
    (f.withOrder n).uniqueId = f.uniqueId := rfl

@[simp] theorem Field.parent_withParent (f : Field) (p : Option String) :
    (f.withParent p).parent = p := rfl

@[simp] theorem fieldKey_withOrder (f : Field) (n : Nat) :
    fieldKey (f.withOrder n) = fieldKey f := rfl

@[simp] theorem locMatches_withOrder (q : Option String) (f : Field) (n : Nat) :
    locMatches q (f.withOrder n) = locMatches q f := rfl

/-! ### Normalizer lemmas -/

theorem setOrdersFrom_map_order (i : Nat) (fs : List Field) :
    (setOrdersFrom i fs).map Field.order = List.range' i fs.length := by
  induction fs generalizing i with
  | nil => rfl
  | cons f rest ih =>
    simp only [setOrdersFrom, List.map_cons, Field.order_withOrder,
      List.length_cons, List.range'_succ, ih]

/-- The normalizer produces the dense zero-based ranking. -/
theorem setCorrectOrderForFields_map_order (fs : List Field) :
    (setCorrectOrderForFields fs).map Field.order = List.range fs.length := by
  rw [setCorrectOrderForFields, setOrdersFrom_map_order, List.range_eq_range']

theorem setOrdersFrom_map_name (i : Nat) (fs : List Field) :
    (setOrdersFrom i fs).map Field.name = fs.map Field.name := by
  induction fs generalizing i with
  | nil => rfl
  | cons f rest ih => simp [setOrdersFrom, ih]

theorem setOrdersFrom_map_fieldKey (i : Nat) (fs : List Field) :
    (setOrdersFrom i fs).map fieldKey = fs.map fieldKey := by
  induction fs generalizing i with
  | nil => rfl
  | cons f rest ih => simp [setOrdersFrom, ih]

theorem setOrdersFrom_length (i : Nat) (fs : List Field) :
    (setOrdersFrom i fs).length = fs.length := by
  induction fs generalizing i with
  | nil => rfl
  | cons f rest ih => simp [setOrdersFrom, ih]

theorem mem_setOrdersFrom {g : Field} {i : Nat} {fs : List Field}
    (h : g ∈ setOrdersFrom i fs) : ∃ f ∈ fs, ∃ j, g = f.withOrder j := by
  induction fs generalizing i with
  | nil => exact absurd h (by simp [setOrdersFrom])
  | cons f rest ih =>
    simp only [setOrdersFrom, List.mem_cons] at h
    rcases h with h | h
    · exact ⟨f, List.mem_cons_self _ _, i, h⟩
    · obtain ⟨f', hf', j, hj⟩ := ih h
      exact ⟨f', List.mem_cons_of_mem _ hf', j, hj⟩

/-! ### Sort lemmas -/

theorem insertByOrder_perm (f : Field) (l : List Field) :
    (insertByOrder f l).Perm (f :: l) := by
  induction l with
  | nil => exact List.Perm.refl _
  | cons g rest ih =>
    simp only [insertByOrder]
    by_cases h : g.order ≤ f.order
    · rw [if_pos h]
      exact (ih.cons g).trans (List.Perm.swap f g rest)
    · rw [if_neg h]

theorem foldl_insertByOrder_perm (l : List Field) :
    ∀ acc : List Field,
      (l.foldl (fun acc f => insertByOrder f acc) acc).Perm (l ++ acc) := by
  induction l with
  | nil => intro acc; simp
  | cons f rest ih =>
    intro acc
    simp only [List.foldl_cons, List.cons_append]
    have h1 := ih (insertByOrder f acc)
    have h2 : (rest ++ insertByOrder f acc).Perm (rest ++ f :: acc) :=
      (insertByOrder_perm f acc).append_left rest
    have h3 : (rest ++ f :: acc).Perm (f :: (rest ++ acc)) := List.perm_middle
    exact (h1.trans h2).trans h3

theorem sortByOrder_perm (l : List Field) : (sortByOrder l).Perm l := by
  have := foldl_insertByOrder_perm l []
  simpa [sortByOrder] using this

theorem sorted_insertByOrder {f : Field} {l : List Field}
    (h : l.Pairwise (fun a b : Field => a.order ≤ b.order)) :
    (insertByOrder f l).Pairwise (fun a b : Field => a.order ≤ b.order) := by
  induction l with
  | nil => simp [insertByOrder]
  | cons g rest ih =>
    rcases List.pairwise_cons.mp h with ⟨hg, hrest⟩
    simp only [insertByOrder]
    by_cases hle : g.order ≤ f.order
    · rw [if_pos hle]
      refine List.pairwise_cons.mpr ⟨?_, ih hrest⟩
      intro x hx
      have hx2 := (insertByOrder_perm f rest).mem_iff.mp hx
      rcases List.mem_cons.mp hx2 with h2 | h2
      · rw [h2]; exact hle
      · exact hg x h2
    · rw [if_neg hle]
      refine List.pairwise_cons.mpr ⟨?_, h⟩
      intro x hx
      have hf : f.order ≤ g.order := Nat.le_of_lt (Nat.lt_of_not_le hle)
      rcases List.mem_cons.mp hx with h2 | h2
      · rw [h2]; exact hf
      · exact Nat.le_trans hf (hg x h2)

theorem sorted_foldl_insertByOrder (l : List Field) :
    ∀ acc : List Field,
      acc.Pairwise (fun a b : Field => a.order ≤ b.order) →
      (l.foldl (fun acc f => insertByOrder f acc) acc).Pairwise
        (fun a b : Field => a.order ≤ b.order) := by
  induction l with
  | nil => intro acc h; simpa using h
  | cons f rest ih =>
    intro acc h
    simp only [List.foldl_cons]
    exact ih _ (sorted_insertByOrder h)

theorem sorted_sortByOrder (l : List Field) :
    (sortByOrder l).Pairwise (fun a b : Field => a.order ≤ b.order) :=
  sorted_foldl_insertByOrder l [] (List.Pairwise.nil)

/-- Two sorted field sequences that are permutations of one another and
have no duplicate `order` values are equal. -/
theorem eq_of_perm_sorted_orders :
    ∀ {l₁ l₂ : List Field}, l₁.Perm l₂ →
      l₁.Pairwise (fun a b : Field => a.order ≤ b.order) →
      l₂.Pairwise (fun a b : Field => a.order ≤ b.order) →
      (l₂.map Field.order).Nodup → l₁ = l₂ := by
  intro l₁ l₂ hp h₁ h₂ hn
  induction l₂ generalizing l₁ with
  | nil => exact hp.eq_nil
  | cons b t₂ ih =>
    cases l₁ with
    | nil =>
      have := hp.symm.eq_nil
      exact absurd this (by simp)
    | cons a t₁ =>
      have hab : a = b := by
        by_contra hne
        have ha2 : a ∈ b :: t₂ := hp.mem_iff.mp (List.mem_cons_self a t₁)
        have hb1 : b ∈ a :: t₁ := hp.mem_iff.mpr (List.mem_cons_self b t₂)
        have ha3 : a ∈ t₂ := by
          rcases List.mem_cons.mp ha2 with h | h
          · exact absurd h hne
          · exact h
        have hb3 : b ∈ t₁ := by
          rcases List.mem_cons.mp hb1 with h | h
          · exact absurd h.symm hne
          · exact h
        have hle1 : a.order ≤ b.order := (List.pairwise_cons.mp h₁).1 b hb3
        have hle2 : b.order ≤ a.order := (List.pairwise_cons.mp h₂).1 a ha3
        have hord : a.order = b.order := Nat.le_antisymm hle1 hle2
        have hmem : b.order ∈ t₂.map Field.order := by
          rw [← hord]
          exact List.mem_map_of_mem Field.order ha3
        have hnd : b.order ∉ t₂.map Field.order := by
          simp only [List.map_cons, List.nodup_cons] at hn
          exact hn.1
        exact hnd hmem
      subst hab
      have hp' : t₁.Perm t₂ := hp.cons_inv
      have hn' : (t₂.map Field.order).Nodup := by
        simp only [List.map_cons, List.nodup_cons] at hn
        exact hn.2
      rw [ih hp' (List.pairwise_cons.mp h₁).2 (List.pairwise_cons.mp h₂).2 hn']

/-! ### Codec lemmas -/

theorem getFieldsAsObject_aux (vs : List Field) :
    ∀ acc : Fields,
      (∀ f ∈ vs, fieldKey f ≠ "") →
      (vs.map fieldKey).Nodup →
      (∀ f ∈ vs, fieldKey f ∉ keysOf acc) →
      vs.foldl
        (fun acc f => if fieldKey f = "" then acc else setKey acc (fieldKey f) f)
        acc
        = acc ++ vs.map (fun f => (fieldKey f, f)) := by
  induction vs with
  | nil =>
    intro acc _ _ _
    simp
  | cons f rest ih =>
    intro acc hk hnd hdisj
    simp only [List.foldl_cons]
    rw [if_neg (hk f (List.mem_cons_self _ _))]
    rw [setKey_eq_append (hdisj f (List.mem_cons_self _ _))]
    have hk' : ∀ g ∈ rest, fieldKey g ≠ "" :=
      fun g hg => hk g (List.mem_cons_of_mem _ hg)
    have hnd' : (rest.map fieldKey).Nodup := by
      simp only [List.map_cons, List.nodup_cons] at hnd
      exact hnd.2
    have hhead : fieldKey f ∉ rest.map fieldKey := by
      simp only [List.map_cons, List.nodup_cons] at hnd
      exact hnd.1
    have hdisj' : ∀ g ∈ rest, fieldKey g ∉ keysOf (acc ++ [(fieldKey f, f)]) := by
      intro g hg
      simp only [keysOf, List.map_append, List.mem_append, List.map_cons,
        List.map_nil, List.mem_singleton]
      push_neg
      refine ⟨hdisj g (List.mem_cons_of_mem _ hg), ?_⟩
      intro heq
      exact hhead (heq ▸ List.mem_map_of_mem fieldKey hg)
    rw [ih (acc ++ [(fieldKey f, f)]) hk' hnd' hdisj']
    simp

theorem getFieldsAsObject_eq {vs : List Field}
    (hk : ∀ f ∈ vs, fieldKey f ≠ "")
    (hnd : (vs.map fieldKey).Nodup) :
    getFieldsAsObject vs = vs.map (fun f => (fieldKey f, f)) := by
  have := getFieldsAsObject_aux vs [] hk hnd (by intro f _; simp [keysOf])
  simpa [getFieldsAsObject] using this

theorem keysOf_map_pair (vs : List Field) :
    keysOf (vs.map (fun f => (fieldKey f, f))) = vs.map fieldKey := by
  simp [keysOf, List.map_map]

theorem values_map_pair (vs : List Field) :
    (vs.map (fun f => (fieldKey f, f))).map Prod.snd = vs := by
  simp only [List.map_map]
  exact List.map_id vs

theorem getKey_map_pair {vs : List Field} (hnd : (vs.map fieldKey).Nodup)
    {f : Field} (hf : f ∈ vs) :
    getKey (vs.map (fun g => (fieldKey g, g))) (fieldKey f) = some f := by
  induction vs with
  | nil => exact absurd hf (by simp)
  | cons g rest ih =>
    simp only [List.map_cons, List.nodup_cons] at hnd
    simp only [List.map_cons, getKey]
    by_cases hfg : fieldKey g = fieldKey f
    · rw [if_pos hfg]
      rcases List.mem_cons.mp hf with h | h
      · rw [h]
      · exact absurd (hfg ▸ List.mem_map_of_mem fieldKey h) hnd.1
    · rw [if_neg hfg]
      rcases List.mem_cons.mp hf with h | h
      · exact absurd (congrArg fieldKey h.symm) hfg
      · exact ih hnd.2 h

theorem getKey_obj {vs : List Field}
    (hk : ∀ f ∈ vs, fieldKey f ≠ "")
    (hnd : (vs.map fieldKey).Nodup)
    {f : Field} (hf : f ∈ vs) :
    getKey (getFieldsAsObject vs) (fieldKey f) = some f := by
  rw [getFieldsAsObject_eq hk hnd]
  exact getKey_map_pair hnd hf

theorem getFieldsAsArray_obj {vs : List Field}
    (hk : ∀ f ∈ vs, fieldKey f ≠ "")
    (hnd : (vs.map fieldKey).Nodup) :
    getFieldsAsArray (getFieldsAsObject vs) = sortByOrder vs := by
  rw [getFieldsAsArray, getFieldsAsObject_eq hk hnd, values_map_pair]

/-! ### Group-extraction lemmas -/

theorem pairwise_of_map_order_range' {G : List Field} {s : Nat}
    (h : G.map Field.order = List.range' s G.length) :
    G.Pairwise (fun a b : Field => a.order ≤ b.order) := by
  have hlt : (G.map Field.order).Pairwise (fun a b : Nat => a < b) := by
    rw [h]
    exact List.pairwise_lt_range' s G.length
  have hle : (G.map Field.order).Pairwise (fun a b : Nat => a ≤ b) :=
    hlt.imp (fun hab => Nat.le_of_lt hab)
  exact (List.pairwise_map.mp hle)

theorem nodup_map_order_of_range' {G : List Field} {s : Nat}
    (h : G.map Field.order = List.range' s G.length) :
    (G.map Field.order).Nodup := by
  rw [h]
  exact List.nodup_range' _ _

/-- Extracting a location group from a collection: if the unsorted
filter of the values is a sequence with ascending distinct orders, the
sorted filter is that same sequence. -/
theorem filter_sortByOrder_eq {vs G : List Field} {q : Option String}
    {s : Nat}
    (hfil : vs.filter (locMatches q) = G)
    (hGord : G.map Field.order = List.range' s G.length) :
    (sortByOrder vs).filter (locMatches q) = G := by
  have hperm : ((sortByOrder vs).filter (locMatches q)).Perm G := by
    rw [← hfil]
    exact (sortByOrder_perm vs).filter _
  exact eq_of_perm_sorted_orders hperm
    ((sorted_sortByOrder vs).filter _)
    (pairwise_of_map_order_range' hGord)
    (nodup_map_order_of_range' hGord)

theorem getFieldsForLocation_obj (bname : String) (vs : List Field)
    (q : Option String)
    (hk : ∀ f ∈ vs, fieldKey f ≠ "")
    (hnd : (vs.map fieldKey).Nodup) :
    getFieldsForLocation { name := bname, fields := some (getFieldsAsObject vs) } q none
      = .ok (some ((sortByOrder vs).filter (locMatches q))) := by
  simp only [getFieldsForLocation]
  rw [getFieldsAsArray_obj hk hnd]

/-! ### Further association-list lemmas -/

theorem getKey_isSome_of_mem {α : Type} {l : List (String × α)} {k : String}
    (h : k ∈ keysOf l) : ∃ v, getKey l k = some v := by
  induction l with
  | nil => exact absurd h (by simp [keysOf])
  | cons p rest ih =>
    rcases p with ⟨a, b⟩
    simp only [keysOf, List.map_cons, List.mem_cons] at h
    simp only [getKey]
    by_cases hk : a = k
    · rw [if_pos hk]
      exact ⟨b, rfl⟩
    · rw [if_neg hk]
      rcases h with h | h
      · exact absurd h.symm hk
      · exact ih h

theorem not_mem_of_getKey_eq_none {α : Type} {l : List (String × α)}
    {k : String} (h : getKey l k = none) : k ∉ keysOf l := by
  intro hmem
  obtain ⟨v, hv⟩ := getKey_isSome_of_mem hmem
  rw [h] at hv
  cases hv

theorem delKey_of_not_mem {α : Type} {l : List (String × α)} {k : String}
    (h : k ∉ keysOf l) : delKey l k = l := by
  induction l with
  | nil => rfl
  | cons p rest ih =>
    rcases p with ⟨a, b⟩
    simp only [keysOf, List.map_cons, List.mem_cons] at h
    push_neg at h
    simp only [delKey]
    rw [if_neg (fun hh => h.1 hh.symm)]
    rw [ih h.2]

theorem delKey_append_singleton {α : Type} {l : List (String × α)}
    {k : String} {v : α} (h : k ∉ keysOf l) :
    delKey (l ++ [(k, v)]) k = l := by
  induction l with
  | nil => simp [delKey]
  | cons p rest ih =>
    rcases p with ⟨a, b⟩
    simp only [keysOf, List.map_cons, List.mem_cons] at h
    push_neg at h
    simp only [List.cons_append, delKey]
    rw [if_neg (fun hh => h.1 hh.symm)]
    exact congrArg (List.cons (a, b)) (ih h.2)

theorem keysOf_setKey_mem {α : Type} {l : List (String × α)} {k : String}
    {v : α} (h : k ∈ keysOf l) : keysOf (setKey l k v) = keysOf l := by
  induction l with
  | nil => exact absurd h (by simp [keysOf])
  | cons p rest ih =>
    rcases p with ⟨a, b⟩
    simp only [keysOf, List.map_cons, List.mem_cons] at h
    simp only [setKey]
    by_cases hk : a = k
    · rw [if_pos hk]
      simp [keysOf, hk]
    · rw [if_neg hk]
      rcases h with h | h
      · exact absurd h.symm hk
      · simp only [keysOf, List.map_cons]
        exact congrArg (List.cons a) (ih h)

theorem keysOf_setKey_not_mem {α : Type} {l : List (String × α)} {k : String}
    {v : α} (h : k ∉ keysOf l) : keysOf (setKey l k v) = keysOf l ++ [k] := by
  rw [setKey_eq_append h]
  simp [keysOf]

theorem setKey_append_mid {α : Type} {l₁ l₂ : List (String × α)} {k : String}
    {v v' : α} (h : k ∉ keysOf l₁) :
    setKey (l₁ ++ (k, v) :: l₂) k v' = l₁ ++ (k, v') :: l₂ := by
  induction l₁ with
  | nil => simp [setKey]
  | cons p rest ih =>
    rcases p with ⟨a, b⟩
    simp only [keysOf, List.map_cons, List.mem_cons] at h
    push_neg at h
    simp only [List.cons_append, setKey]
    rw [if_neg (fun hh => h.1 hh.symm)]
    exact congrArg (List.cons (a, b)) (ih h.2)

theorem entry_eq_of_keysOf_nodup {α : Type} {l : List (String × α)}
    (hnd : (keysOf l).Nodup) {p q : String × α} (hp : p ∈ l) (hq : q ∈ l)
    (hk : p.1 = q.1) : p = q := by
  induction l with
  | nil => exact absurd hp (by simp)
  | cons r rest ih =>
    simp only [keysOf, List.map_cons, List.nodup_cons] at hnd
    rcases List.mem_cons.mp hp with hp2 | hp2
    · rcases List.mem_cons.mp hq with hq2 | hq2
      · rw [hp2, hq2]
      · exfalso
        apply hnd.1
        rw [hp2] at hk
        rw [hk]
        exact List.mem_map_of_mem Prod.fst hq2
    · rcases List.mem_cons.mp hq with hq2 | hq2
      · exfalso
        apply hnd.1
        rw [hq2] at hk
        rw [← hk]
        exact List.mem_map_of_mem Prod.fst hp2
      · exact ih hnd.2 hp2 hq2

/-! ### Normalizer append and swap lemmas -/

theorem setOrdersFrom_append (i : Nat) (xs ys : List Field) :
    setOrdersFrom i (xs ++ ys)
      = setOrdersFrom i xs ++ setOrdersFrom (i + xs.length) ys := by
  induction xs generalizing i with
  | nil => simp [setOrdersFrom]
  | cons f rest ih =>
    simp only [List.cons_append, setOrdersFrom, List.length_cons]
    rw [show i + (rest.length + 1) = i + 1 + rest.length from by omega]
    exact congrArg (List.cons (f.withOrder i)) (ih (i + 1))

theorem set_cons_perm {x : Field} (t : List Field) :
    ∀ k : Nat, (hk : k < t.length) →
      (t[k] :: t.set k x).Perm (x :: t) := by
  induction t with
  | nil =>
    intro k hk
    exact absurd hk (by simp)
  | cons y s ih =>
    intro k hk
    match k with
    | 0 => exact List.Perm.swap x y s
    | m + 1 =>
      have hm : m < s.length := by simpa using hk
      have h1 : (s[m] :: y :: s.set m x).Perm (y :: s[m] :: s.set m x) :=
        List.Perm.swap y (s[m]) (s.set m x)
      have h2 : (s[m] :: s.set m x).Perm (x :: s) := ih m hm
      have h3 : (y :: s[m] :: s.set m x).Perm (y :: x :: s) := h2.cons y
      have h4 : (y :: x :: s).Perm (x :: y :: s) := List.Perm.swap x y s
      simpa using (h1.trans h3).trans h4

theorem set_set_perm :
    ∀ (l : List Field) (i j : Nat), (hi : i < l.length) → (hj : j < l.length) →
      ((l.set i (l[j])).set j (l[i])).Perm l := by
  intro l
  induction l with
  | nil =>
    intro i j hi _
    exact absurd hi (by simp)
  | cons x t ih =>
    intro i j hi hj
    match i, j with
    | 0, 0 =>
      simp
    | 0, k + 1 =>
      have hk : k < t.length := by simpa using hj
      simp only [List.getElem_cons_succ, List.getElem_cons_zero,
        List.set_cons_zero, List.set_cons_succ]
      exact set_cons_perm t k hk
    | m + 1, 0 =>
      have hm : m < t.length := by simpa using hi
      simp only [List.getElem_cons_succ, List.getElem_cons_zero,
        List.set_cons_zero, List.set_cons_succ]
      exact set_cons_perm t m hm
    | m + 1, k + 1 =>
      have hm : m < t.length := by simpa using hi
      have hk : k < t.length := by simpa using hj
      simp only [List.getElem_cons_succ, List.set_cons_succ]
      exact (ih m k hm hk).cons x

theorem swapAt_perm {l : List Field} {i j : Nat} (hi : i < l.length)
    (hj : j < l.length) : (swapAt l i j).Perm l := by
  have h1 : l[i]? = some (l[i]) := List.getElem?_eq_getElem hi
  have h2 : l[j]? = some (l[j]) := List.getElem?_eq_getElem hj
  have heq : swapAt l i j = (l.set i (l[j])).set j (l[i]) := by
    simp [swapAt, h1, h2]
  rw [heq]
  exact set_set_perm l i j hi hj

theorem swapAt_length (l : List Field) (i j : Nat) :
    (swapAt l i j).length = l.length := by
  unfold swapAt
  match h1 : l[i]?, h2 : l[j]? with
  | some fi, some fj => simp
  | some fi, none => simp
  | none, some fj => simp
  | none, none => simp

/-! ### Location-partition lemmas -/

/-- Membership in a location group, unfolded. -/
theorem locMatches_eq_true_iff (q : Option String) (f : Field) :
    locMatches q f = true ↔
      (q = f.location ∨ (strFalsy f.location = true ∧ q = some DEFAULT_LOCATION)) := by
  simp [locMatches, Bool.or_eq_true, Bool.and_eq_true, decide_eq_true_eq]

/-- In the two-location system, no field is in a location's group and
its complementary location's group at once. -/
theorem locMatches_other_exclusive {loc : String}
    (h : loc = "editor" ∨ loc = "inspector") (f : Field) :
    ¬(locMatches (some loc) f = true ∧
      locMatches (some (getOtherLocation loc)) f = true) := by
  rintro ⟨h1, h2⟩
  rw [locMatches_eq_true_iff] at h1 h2
  rcases h with h | h <;> subst h
  · have hother : getOtherLocation ("editor") = "inspector" := rfl
    rw [hother] at h2
    rcases h2 with h2 | h2
    · rcases h1 with h1 | h1
      · rw [← h1] at h2
        exact absurd (Option.some.inj h2) (by decide)
      · rw [← h2] at h1
        exact absurd h1.1 (by decide)
    · exact absurd h2.2 (by simp [DEFAULT_LOCATION])
  · have hother : getOtherLocation ("inspector") = "editor" := rfl
    rw [hother] at h2
    rcases h1 with h1 | h1
    · rcases h2 with h2 | h2
      · rw [← h1] at h2
        exact absurd (Option.some.inj h2) (by decide)
      · rw [← h1] at h2
        exact absurd h2.1 (by decide)
    · exact absurd h1.2 (by simp [DEFAULT_LOCATION])

/-! ### Well-formed collection lemmas -/

theorem wf_fieldKey {flds : Fields} (h : wfFields flds) :
    ∀ p ∈ flds, fieldKey (p : String × Field).2 = p.1 := by
  intro p hp
  obtain ⟨hu, hn, hne⟩ := h.2 p hp
  simp [fieldKey, hu, hne]

theorem wf_values_fieldKeys {flds : Fields} (h : wfFields flds) :
    (flds.map Prod.snd).map fieldKey = keysOf flds := by
  rw [List.map_map, keysOf]
  apply List.map_congr_left
  intro p hp
  exact wf_fieldKey h p hp

theorem wf_value_eq_of_fieldKey {flds : Fields} (h : wfFields flds)
    {f g : Field} (hf : f ∈ flds.map Prod.snd) (hg : g ∈ flds.map Prod.snd)
    (hk : fieldKey f = fieldKey g) : f = g := by
  simp only [List.mem_map] at hf hg
  obtain ⟨p, hp, hp2⟩ := hf
  obtain ⟨q, hq, hq2⟩ := hg
  subst hp2
  subst hq2
  have hpq : p.1 = q.1 := by
    rw [← wf_fieldKey h p hp, ← wf_fieldKey h q hq]
    exact hk
  rw [entry_eq_of_keysOf_nodup h.1 hp hq hpq]

/-! ### Claim C2 -/

/-- C2 counterexample: the claim says every mutation with an unknown
reference returns the block unchanged; but the rename step applied to
the empty collection with the unknown old identifier `x` does not
return the collection unchanged (it inserts a fresh field keyed by the
new name). -/
theorem C2_counterexample :
    changeFieldName ([] : Fields) ("x") ("y") ≠ ([] : Fields) := by
  intro h
  have h1 : (changeFieldName ([] : Fields) ("x") ("y")).length = 1 := rfl
  rw [h] at h1
  exact absurd h1 (by decide)

/-- C2 (amended): with an unknown old identifier the rename step leaves
every existing key's field unchanged and ends with no field under the
old identifier, but inserts a fresh field (holding only `name` and
`uniqueId`) under the allocated new key, so it is not a no-op; and
`addNewField` with an unknown parent identifier throws (a `TypeError`)
instead of degrading to a no-op. -/
theorem C2_unknown_reference :
    (∀ (fields : Fields) (prev newName : String),
      getKey fields prev = none →
      (∀ k, k ≠ allocatedKey fields newName →
        getKey (changeFieldName fields prev newName) k = getKey fields k) ∧
      getKey (changeFieldName fields prev newName) prev = none ∧
      (allocatedKey fields newName ≠ prev →
        getKey (changeFieldName fields prev newName) (allocatedKey fields newName)
          = some (Field.mk
              { name := newName, uniqueId := some (allocatedKey fields newName) }
              none))) ∧
    (∀ (controls : Controls) (block : Block) (loc p : String) (flds : Fields),
      block.fields = some flds → getKey flds p = none →
      addNewField controls block loc (some p) = .error ("TypeError")) := by
  constructor
  · intro fields prev newName h
    have hprevnm : prev ∉ keysOf fields := not_mem_of_getKey_eq_none h
    have hAnm : allocatedKey fields newName ∉ keysOf fields :=
      allocatedKey_not_mem fields newName
    have hstep : changeFieldName fields prev newName
        = delKey (setKey fields (allocatedKey fields newName)
            (Field.mk
              { name := newName, uniqueId := some (allocatedKey fields newName) }
              none)) prev := by
      simp only [changeFieldName, h]
    refine ⟨?_, ?_, ?_⟩
    · intro k hkA
      rw [hstep]
      by_cases hkp : k = prev
      · subst hkp
        have hknotin : k ∉ keysOf (setKey fields (allocatedKey fields newName)
            (Field.mk
              { name := newName, uniqueId := some (allocatedKey fields newName) }
              none)) := by
          rw [keysOf_setKey_not_mem hAnm]
          simp only [List.mem_append, List.mem_singleton]
          push_neg
          exact ⟨hprevnm, hkA⟩
        rw [delKey_of_not_mem hknotin]
        exact getKey_setKey_ne hkA
      · rw [getKey_delKey_ne hkp]
        exact getKey_setKey_ne hkA
    · rw [hstep]
      by_cases hA : allocatedKey fields newName = prev
      · rw [hA, setKey_eq_append hprevnm, delKey_append_singleton hprevnm]
        exact h
      · have hknotin : prev ∉ keysOf (setKey fields (allocatedKey fields newName)
            (Field.mk
              { name := newName, uniqueId := some (allocatedKey fields newName) }
              none)) := by
          rw [keysOf_setKey_not_mem hAnm]
          simp only [List.mem_append, List.mem_singleton]
          push_neg
          exact ⟨hprevnm, fun hh => hA hh.symm⟩
        rw [delKey_of_not_mem hknotin, getKey_setKey_ne (fun hh => hA hh.symm)]
        exact h
    · intro hAp
      rw [hstep, getKey_delKey_ne hAp, getKey_setKey_self]
  · intro controls block loc p flds hb hp
    simp only [addNewField, hb, Option.getD_some, hp]

/-- C2 witness: the amended statement at concrete inputs: renaming the
missing field `x` of the empty collection to `y` inserts the fresh
blank field under `y`, and adding a field under the missing parent
`nope` throws. -/
theorem C2_witness :
    getKey (changeFieldName ([] : Fields) ("x") ("y")) ("y")
        = some (Field.mk { name := "y", uniqueId := some ("y") } none) ∧
    addNewField sampleControls blockAB ("editor") (some ("nope"))
        = .error ("TypeError") := by
  constructor
  · have h3 := (C2_unknown_reference.1 ([] : Fields) ("x") ("y") rfl).2.2
    have hA : allocatedKey ([] : Fields) ("y") = "y" := rfl
    rw [hA] at h3
    exact h3 (by decide)
  · exact C2_unknown_reference.2 sampleControls blockAB ("editor") ("nope") _ rfl rfl

/-! ### Claim C9 -/

/-- C9 counterexample: `getField` with a selector naming a parent that
does not exist throws a `TypeError` instead of returning the empty
object. -/
theorem C9_counterexample :
    getField blockAB (some { uniqueId := "s", name := "s", parent := some ("nope") })
      = .error ("TypeError") := rfl

/-- C9 (amended): the read accessors never throw as long as any
referenced parent exists and owns `sub_fields`: `getField` returns the
empty object for an absent selector, a falsy `uniqueId` or an absent
collection, and never throws for parent-free selectors;
`getFieldsForLocation` never throws at top level and returns `null`
when the collection is absent.  (A selector naming a missing parent
makes both throw, per the counterexample.) -/
theorem C9_read_accessors :
    (∀ block : Block, getField block none = .ok .emptyObj) ∧
    (∀ (block : Block) (sf : SelectedField), sf.uniqueId = "" →
      getField block (some sf) = .ok .emptyObj) ∧
    (∀ (bname : String) (sf : SelectedField),
      getField { name := bname, fields := none } (some sf) = .ok .emptyObj) ∧
    (∀ (block : Block) (sf : SelectedField), sf.parent = none →
      ∃ r, getField block (some sf) = .ok r) ∧
    (∀ (block : Block) (q : Option String),
      ∃ r, getFieldsForLocation block q none = .ok r) ∧
    (∀ (bname : String) (q : Option String) (pf : Option String),
      getFieldsForLocation { name := bname, fields := none } q pf = .ok none) ∧
    (∀ (block : Block) (flds : Fields) (sf : SelectedField) (p : String)
       (pf : Field) (subs : Fields),
      block.fields = some flds → sf.parent = some p → getKey flds p = some pf →
      pf.subFields = some subs → ∃ r, getField block (some sf) = .ok r) := by
  refine ⟨?_, ?_, ?_, ?_, ?_, ?_, ?_⟩
  · intro block
    rfl
  · intro block sf hu
    simp [getField, hu]
  · intro bname sf
    by_cases hu : sf.uniqueId = "" <;> simp [getField, hu]
  · intro block sf hp
    by_cases hu : sf.uniqueId = ""
    · exact ⟨.emptyObj, by simp [getField, hu]⟩
    · match hbf : block.fields with
      | none => exact ⟨.emptyObj, by simp [getField, hu, hbf]⟩
      | some flds =>
        match hg : getKey flds sf.uniqueId with
        | some f => exact ⟨.found f, by simp [getField, hu, hbf, hp, hg]⟩
        | none => exact ⟨.undef, by simp [getField, hu, hbf, hp, hg]⟩
  · intro block q
    match hbf : block.fields with
    | none => exact ⟨none, by simp [getFieldsForLocation, hbf]⟩
    | some flds =>
      exact ⟨some ((getFieldsAsArray flds).filter (locMatches q)),
        by simp [getFieldsForLocation, hbf]⟩
  · intro bname q pf
    rfl
  · intro block flds sf p pf subs hb hp hpf hsubs
    by_cases hu : sf.uniqueId = ""
    · exact ⟨.emptyObj, by simp [getField, hu]⟩
    · by_cases hpe : p = ""
      · match hg : getKey flds sf.uniqueId with
        | some f => exact ⟨.found f, by simp [getField, hu, hb, hp, hpe, hg]⟩
        | none => exact ⟨.undef, by simp [getField, hu, hb, hp, hpe, hg]⟩
      · match hg : getKey subs sf.uniqueId with
        | some f =>
          exact ⟨.found f, by simp [getField, hu, hb, hp, hpe, hpf, hsubs, hg]⟩
        | none =>
          exact ⟨.undef, by simp [getField, hu, hb, hp, hpe, hpf, hsubs, hg]⟩

/-- C9 witness: the amended statement at a concrete block: reading the
nested field through its existing parent does not throw. -/
theorem C9_witness :
    ∃ r, getField blockNest (some { uniqueId := "s", name := "s", parent := some ("r") })
      = .ok r :=
  C9_read_accessors.2.2.2.2.2.2 blockNest _ _ ("r") repeaterR nestSubs rfl rfl rfl rfl

/-! ### Claim C4 -/

theorem mem_getFieldsAsObject_aux (l : List Field) :
    ∀ (acc : Fields) (p : String × Field),
      p ∈ l.foldl
        (fun acc f => if fieldKey f = "" then acc else setKey acc (fieldKey f) f)
        acc →
      p ∈ acc ∨ p.2 ∈ l := by
  induction l with
  | nil =>
    intro acc p h
    left
    simpa using h
  | cons f rest ih =>
    intro acc p h
    simp only [List.foldl_cons] at h
    by_cases hk : fieldKey f = ""
    · rw [if_pos hk] at h
      rcases ih _ p h with h2 | h2
      · left
        exact h2
      · right
        exact List.mem_cons_of_mem _ h2
    · rw [if_neg hk] at h
      rcases ih _ p h with h2 | h2
      · rcases mem_setKey h2 with h3 | h3
        · left
          exact h3
        · right
          rw [h3]
          exact List.mem_cons_self _ _
      · right
        exact List.mem_cons_of_mem _ h2

/-- Every value of the keyed mapping built by the codec comes from the
input sequence. -/
theorem snd_mem_of_mem_getFieldsAsObject {l : List Field} {p : String × Field}
    (h : p ∈ getFieldsAsObject l) : p.2 ∈ l := by
  rcases mem_getFieldsAsObject_aux l [] p h with h2 | h2
  · exact absurd h2 (by simp)
  · exact h2

/-- C4: renaming a field owning `sub_fields` removes the old key,
stores the renamed field under the allocated key, and rewrites every
sub-field's `parent` to the new name, so no sub-field retains the old
parent name. -/
theorem C4_rename_repeater (fields : Fields) (prev newName : String)
    (hnd : (keysOf fields).Nodup) (f : Field)
    (hf : getKey fields prev = some f) (subs : Fields)
    (hsubs : f.subFields = some subs) :
    getKey (changeFieldName fields prev newName) prev = none ∧
    ∃ nf,
      getKey (changeFieldName fields prev newName) (allocatedKey fields newName)
        = some nf ∧
      nf.name = newName ∧
      nf.uniqueId = some (allocatedKey fields newName) ∧
      ∃ subs2, nf.subFields = some subs2 ∧
        ∀ q ∈ subs2, ((q : String × Field).2).parent = some newName := by
  have hApos : allocatedKey fields newName ∉ keysOf fields :=
    allocatedKey_not_mem fields newName
  have hprevmem : prev ∈ keysOf fields := mem_keysOf_of_getKey hf
  have hAp : allocatedKey fields newName ≠ prev :=
    fun hh => hApos (hh ▸ hprevmem)
  have hstep : changeFieldName fields prev newName
      = delKey
          (setKey
            (setKey fields prev
              (f.withSubFields (some (getFieldsAsObject
                ((subs.map Prod.snd).map (fun sf => sf.withParent (some newName)))))))
            (allocatedKey fields newName)
            (Field.mk
              { (f.withSubFields (some (getFieldsAsObject
                  ((subs.map Prod.snd).map (fun sf => sf.withParent (some newName)))))).attrs
                  with
                name := newName, uniqueId := some (allocatedKey fields newName) }
              (f.withSubFields (some (getFieldsAsObject
                ((subs.map Prod.snd).map (fun sf => sf.withParent (some newName)))))).subFields))
          prev := by
    simp only [changeFieldName, hf, hsubs]
  have hndL : (keysOf
      (setKey
        (setKey fields prev
          (f.withSubFields (some (getFieldsAsObject
            ((subs.map Prod.snd).map (fun sf => sf.withParent (some newName)))))))
        (allocatedKey fields newName)
        (Field.mk
          { (f.withSubFields (some (getFieldsAsObject
              ((subs.map Prod.snd).map (fun sf => sf.withParent (some newName)))))).attrs
              with
            name := newName, uniqueId := some (allocatedKey fields newName) }
          (f.withSubFields (some (getFieldsAsObject
            ((subs.map Prod.snd).map (fun sf => sf.withParent (some newName)))))).subFields))).Nodup := by
    rw [keysOf_setKey_not_mem (by rw [keysOf_setKey_mem hprevmem]; exact hApos),
      keysOf_setKey_mem hprevmem]
    refine List.Nodup.append hnd (List.nodup_singleton _) ?_
    intro x hx hx2
    rw [List.mem_singleton] at hx2
    subst hx2
    exact hApos hx
  constructor
  · rw [hstep]
    exact getKey_delKey_self hndL
  · have hnfkey : getKey (changeFieldName fields prev newName)
        (allocatedKey fields newName)
        = some (Field.mk
            { f.attrs with
              name := newName,
              uniqueId := some (allocatedKey fields newName) }
            (some (getFieldsAsObject
              ((subs.map Prod.snd).map (fun sf => sf.withParent (some newName)))))) := by
      rw [hstep, getKey_delKey_ne hAp]
      exact getKey_setKey_self
    refine ⟨_, hnfkey, rfl, rfl, ⟨_, rfl, ?_⟩⟩
    · intro q hq
      have hv := snd_mem_of_mem_getFieldsAsObject hq
      simp only [List.mem_map] at hv
      obtain ⟨sf, _, hsf⟩ := hv
      rw [← hsf]
      exact Field.parent_withParent sf (some newName)

/-- C4 witness: renaming the repeater `r` of the sample collection to
`w`: the old key is gone, and the field under the allocated key `w`
carries sub-fields all reparented to `w`. -/
theorem C4_witness :
    getKey (changeFieldName nestFields ("r") ("w")) ("r") = none ∧
    ∃ nf,
      getKey (changeFieldName nestFields ("r") ("w")) (allocatedKey nestFields ("w"))
        = some nf ∧
      nf.name = "w" ∧
      nf.uniqueId = some (allocatedKey nestFields ("w")) ∧
      ∃ subs2, nf.subFields = some subs2 ∧
        ∀ q ∈ subs2, ((q : String × Field).2).parent = some ("w") :=
  C4_rename_repeater nestFields ("r") ("w") (by decide) repeaterR rfl nestSubs rfl

/-! ### Claim C6 -/

/-- C6: `changeControl` is a no-op when the control is unregistered or
the selector's name is falsy; otherwise it replaces the field by one
that carries over exactly `name`, `label`, `location` and `order`,
takes `control` and `type` from the registry entry, resets the
control-specific settings to the new control's resolver defaults, and
leaves every other field unchanged (top level and nested). -/
theorem C6_changeControl :
    (∀ (controls : Controls) (block : Block) (sel : SelectedField) (cn : String),
      getKey controls cn = none → changeControl controls block sel cn = .ok block) ∧
    (∀ (controls : Controls) (block : Block) (sel : SelectedField) (cn : String),
      sel.name = "" → changeControl controls block sel cn = .ok block) ∧
    (∀ (controls : Controls) (block : Block) (sel : SelectedField) (cn : String)
       (ctl : Control) (flds : Fields) (prev : Field),
      getKey controls cn = some ctl → sel.name ≠ "" → sel.parent = none →
      block.fields = some flds → getKey flds sel.name = some prev →
      ∃ flds2, changeControl controls block sel cn
          = .ok { block with fields := some flds2 } ∧
        (∀ k, k ≠ sel.name → getKey flds2 k = getKey flds k) ∧
        ∃ nf, getKey flds2 sel.name = some nf ∧
          nf.name = prev.name ∧ nf.label = prev.label ∧
          nf.location = prev.location ∧ nf.order = prev.order ∧
          nf.control = ctl.name ∧ nf.ftype = ctl.ftype ∧
          nf.settings = stripReserved (getSettingsDefaults ctl.name controls)) ∧
    (∀ (controls : Controls) (block : Block) (sel : SelectedField) (cn : String)
       (ctl : Control) (flds : Fields) (p : String) (pf : Field) (subs : Fields)
       (prev : Field),
      getKey controls cn = some ctl → sel.name ≠ "" → sel.parent = some p →
      block.fields = some flds → getKey flds p = some pf →
      pf.subFields = some subs → getKey subs sel.name = some prev →
      ∃ flds2 subs2, changeControl controls block sel cn
          = .ok { block with fields := some flds2 } ∧
        getKey flds2 p = some (pf.withSubFields (some subs2)) ∧
        (∀ k, k ≠ p → getKey flds2 k = getKey flds k) ∧
        (∀ k, k ≠ sel.name → getKey subs2 k = getKey subs k) ∧
        ∃ nf, getKey subs2 sel.name = some nf ∧
          nf.name = prev.name ∧ nf.label = prev.label ∧
          nf.location = prev.location ∧ nf.order = prev.order ∧
          nf.control = ctl.name ∧ nf.ftype = ctl.ftype ∧
          nf.parent = some p ∧
          nf.settings = stripReserved (getSettingsDefaults ctl.name controls)) := by
  refine ⟨?_, ?_, ?_, ?_⟩
  · intro controls block sel cn h
    simp only [changeControl, h]
  · intro controls block sel cn h
    match hc : getKey controls cn with
    | none => simp only [changeControl, hc]
    | some ctl => simp [changeControl, hc, h]
  · intro controls block sel cn ctl flds prev hc hs hp hb hprev
    have hstep : changeControl controls block sel cn
        = .ok { block with fields := some (setKey flds sel.name (Field.mk
            { name := prev.name, label := prev.label, control := ctl.name,
              ftype := ctl.ftype, location := prev.location, order := prev.order,
              parent := none, uniqueId := none,
              settings := stripReserved (getSettingsDefaults ctl.name controls) }
            none)) } := by
      simp only [changeControl, hc, hb, hp, hprev, if_neg hs]
    refine ⟨_, hstep, ?_, ⟨_, getKey_setKey_self, rfl, rfl, rfl, rfl, rfl, rfl, rfl⟩⟩
    intro k hk
    exact getKey_setKey_ne hk
  · intro controls block sel cn ctl flds p pf subs prev hc hs hpp hb hpf hsubs hprev
    have hstep : changeControl controls block sel cn
        = .ok { block with fields := some (setKey flds p (pf.withSubFields (some
            (setKey subs sel.name (Field.mk
              { name := prev.name, label := prev.label, control := ctl.name,
                ftype := ctl.ftype, location := prev.location, order := prev.order,
                parent := some p, uniqueId := none,
                settings := stripReserved (getSettingsDefaults ctl.name controls) }
              none))))) } := by
      simp only [changeControl, hc, hb, hpp, hpf, hsubs, hprev, if_neg hs]
    refine ⟨_, _, hstep, getKey_setKey_self, ?_, ?_,
      ⟨_, getKey_setKey_self, rfl, rfl, rfl, rfl, rfl, rfl, rfl, rfl⟩⟩
    · intro k hk
      exact getKey_setKey_ne hk
    · intro k hk
      exact getKey_setKey_ne hk

/-- C6 witness: changing the control of field `a` of the sample block
to the registered `textarea` control. -/
theorem C6_witness :
    ∃ flds2, changeControl sampleControls blockAB
        { uniqueId := "a", name := "a" } ("textarea")
        = .ok { blockAB with fields := some flds2 } ∧
      (∀ k, k ≠ "a" → getKey flds2 k
        = getKey [("a", plainField ("a") (some ("editor")) 0),
                  ("c", plainField ("c") (some ("editor")) 1),
                  ("d", plainField ("d") (some ("inspector")) 0)] k) ∧
      ∃ nf, getKey flds2 ("a") = some nf ∧
        nf.name = (plainField ("a") (some ("editor")) 0).name ∧
        nf.label = (plainField ("a") (some ("editor")) 0).label ∧
        nf.location = (plainField ("a") (some ("editor")) 0).location ∧
        nf.order = (plainField ("a") (some ("editor")) 0).order ∧
        nf.control = textareaControl.name ∧ nf.ftype = textareaControl.ftype ∧
        nf.settings = stripReserved (getSettingsDefaults textareaControl.name sampleControls) :=
  C6_changeControl.2.2.1 sampleControls blockAB
    { uniqueId := "a", name := "a" } ("textarea") textareaControl _
    (plainField ("a") (some ("editor")) 0) rfl (by decide) rfl rfl rfl

/-! ### Claim C10 -/

/-- C10: the field `changeControl` builds consists only of the new
control's resolver defaults plus `name`, `label`, `location`, `order`,
`control`, `type` (and `parent` for nested fields): in particular a
repeater's `sub_fields` collection and a stored `uniqueId` are
discarded, as the replacement equals a literal field with
`sub_fields` and `uniqueId` absent. -/
theorem C10_changeControl_discards :
    (∀ (controls : Controls) (block : Block) (sel : SelectedField) (cn : String)
       (ctl : Control) (flds : Fields) (prev : Field) (sfs : Fields) (uid : String),
      getKey controls cn = some ctl → sel.name ≠ "" → sel.parent = none →
      block.fields = some flds → getKey flds sel.name = some prev →
      prev.subFields = some sfs → prev.uniqueId = some uid →
      ∃ flds2, changeControl controls block sel cn
          = .ok { block with fields := some flds2 } ∧
        getKey flds2 sel.name = some (Field.mk
          { name := prev.name, label := prev.label, control := ctl.name,
            ftype := ctl.ftype, location := prev.location, order := prev.order,
            parent := none, uniqueId := none,
            settings := stripReserved (getSettingsDefaults ctl.name controls) }
          none)) ∧
    (∀ (controls : Controls) (block : Block) (sel : SelectedField) (cn : String)
       (ctl : Control) (flds : Fields) (p : String) (pf : Field) (subs : Fields)
       (prev : Field),
      getKey controls cn = some ctl → sel.name ≠ "" → sel.parent = some p →
      block.fields = some flds → getKey flds p = some pf →
      pf.subFields = some subs → getKey subs sel.name = some prev →
      ∃ flds2 subs2, changeControl controls block sel cn
          = .ok { block with fields := some flds2 } ∧
        getKey flds2 p = some (pf.withSubFields (some subs2)) ∧
        getKey subs2 sel.name = some (Field.mk
          { name := prev.name, label := prev.label, control := ctl.name,
            ftype := ctl.ftype, location := prev.location, order := prev.order,
            parent := some p, uniqueId := none,
            settings := stripReserved (getSettingsDefaults ctl.name controls) }
          none)) := by
  constructor
  · intro controls block sel cn ctl flds prev sfs uid hc hs hp hb hprev hsf huid
    have hstep : changeControl controls block sel cn
        = .ok { block with fields := some (setKey flds sel.name (Field.mk
            { name := prev.name, label := prev.label, control := ctl.name,
              ftype := ctl.ftype, location := prev.location, order := prev.order,
              parent := none, uniqueId := none,
              settings := stripReserved (getSettingsDefaults ctl.name controls) }
            none)) } := by
      simp only [changeControl, hc, hb, hp, hprev, if_neg hs]
    exact ⟨_, hstep, getKey_setKey_self⟩
  · intro controls block sel cn ctl flds p pf subs prev hc hs hpp hb hpf hsubs hprev
    have hstep : changeControl controls block sel cn
        = .ok { block with fields := some (setKey flds p (pf.withSubFields (some
            (setKey subs sel.name (Field.mk
              { name := prev.name, label := prev.label, control := ctl.name,
                ftype := ctl.ftype, location := prev.location, order := prev.order,
                parent := some p, uniqueId := none,
                settings := stripReserved (getSettingsDefaults ctl.name controls) }
              none))))) } := by
      simp only [changeControl, hc, hb, hpp, hpf, hsubs, hprev, if_neg hs]
    exact ⟨_, _, hstep, getKey_setKey_self, getKey_setKey_self⟩

/-- C10 witness: changing the repeater `r` (which owns `sub_fields` and
a stored `uniqueId`) to `textarea` replaces it by the literal field
without `sub_fields` and without `uniqueId`. -/
theorem C10_witness :
    ∃ flds2, changeControl sampleControls blockNest
        { uniqueId := "r", name := "r" } ("textarea")
        = .ok { blockNest with fields := some flds2 } ∧
      getKey flds2 ("r") = some (Field.mk
        { name := repeaterR.name, label := repeaterR.label,
          control := textareaControl.name, ftype := textareaControl.ftype,
          location := repeaterR.location, order := repeaterR.order,
          parent := none, uniqueId := none,
          settings := stripReserved (getSettingsDefaults textareaControl.name sampleControls) }
        none) :=
  C10_changeControl_discards.1 sampleControls blockNest
    { uniqueId := "r", name := "r" } ("textarea") textareaControl nestFields
    repeaterR nestSubs ("r") rfl (by decide) rfl rfl rfl rfl rfl

/-! ### Claim C8 -/

/-- C8: `addNewField` on a block with no fields creates `new-field`
with order `0` at the requested location and returns the identifier; a
second call, `new-field` being taken and `new-field-2` free, names the
field `new-field-2`; in general the new field is seeded with the
default control's resolver defaults and its order is the sibling
count. -/
theorem C8_addNewField :
    (∀ (controls : Controls) (block : Block),
      (block.fields = none ∨ block.fields = some []) →
      addNewField controls block ("editor") none
        = .ok ({ block with fields := some [("new-field", Field.mk
            { name := "new-field", label := "New Field", control := "text",
              ftype := "string", location := some ("editor"), order := 0,
              parent := none, uniqueId := none,
              settings := stripReserved (getSettingsDefaults ("text") controls) }
            none)] }, "new-field")) ∧
    (∀ (controls : Controls) (block : Block) (flds : Fields),
      block.fields = some flds → ("new-field" : String) ∈ keysOf flds →
      ("new-field-2" : String) ∉ keysOf flds →
      ∃ b', addNewField controls block ("editor") none = .ok (b', "new-field-2")) ∧
    (∀ (controls : Controls) (block : Block) (flds : Fields) (loc : String),
      block.fields = some flds →
      ∃ nf, addNewField controls block loc none
          = .ok ({ block with
                fields := some (setKey flds (allocatedKey flds ("new-field")) nf) },
              allocatedKey flds ("new-field")) ∧
        nf.name = allocatedKey flds ("new-field") ∧
        nf.order = flds.length ∧ nf.location = some loc ∧
        nf.control = "text" ∧ nf.ftype = "string" ∧ nf.parent = none ∧
        nf.settings = stripReserved (getSettingsDefaults ("text") controls)) := by
  refine ⟨?_, ?_, ?_⟩
  · intro controls block h
    rcases block with ⟨bn, bf⟩
    rcases h with h | h
    · have h2 : bf = none := h
      subst h2
      rfl
    · have h2 : bf = some [] := h
      subst h2
      rfl
  · intro controls block flds hb hmem hnot
    have hsfx : suffixStr ("new-field") 2 = "new-field-2" := rfl
    have hff : findFree (keysOf flds) ("new-field") ((keysOf flds).length + 1) 2
        = 2 := by
      have hnotin : suffixStr ("new-field") 2 ∉ keysOf flds := by
        rw [hsfx]
        exact hnot
      simp only [findFree]
      rw [if_neg (by simpa using hnotin)]
    have hn : getNewFieldNumber flds ("new-field") = 2 := by
      have hc : (keysOf flds).contains ("new-field") = true := by simpa using hmem
      simp only [getNewFieldNumber, hc, if_true]
      exact hff
    have hstep : addNewField controls block ("editor") none
        = .ok ({ block with fields := some (setKey flds ("new-field-2")
            (Field.mk
              { name := "new-field-2", label := "New Field " ++ natStr 2,
                control := "text", ftype := "string", location := some ("editor"),
                order := flds.length, parent := none, uniqueId := none,
                settings := stripReserved (getSettingsDefaults ("text") controls) }
              none)) }, "new-field-2") := by
      simp only [addNewField, hb, Option.getD_some, hn]
      simp [hsfx]
    exact ⟨_, hstep⟩
  · intro controls block flds loc hb
    refine ⟨Field.mk
      { name := allocatedKey flds ("new-field"),
        label := if getNewFieldNumber flds ("new-field") ≠ 0
          then "New Field " ++ natStr (getNewFieldNumber flds ("new-field"))
          else "New Field",
        control := "text", ftype := "string", location := some loc,
        order := flds.length, parent := none, uniqueId := none,
        settings := stripReserved (getSettingsDefaults ("text") controls) }
      none, ?_, rfl, rfl, rfl, rfl, rfl, rfl, rfl⟩
    simp only [addNewField, hb, Option.getD_some]
    rfl

/-- C8 witness: the first call on an empty block yields `new-field`
with order 0 in the editor, and on a block already holding `new-field`
the next identifier is `new-field-2`. -/
theorem C8_witness :
    addNewField sampleControls { name := "blk", fields := some [] } ("editor") none
      = .ok ({ name := "blk", fields := some [("new-field", Field.mk
          { name := "new-field", label := "New Field", control := "text",
            ftype := "string", location := some ("editor"), order := 0,
            parent := none, uniqueId := none,
            settings := stripReserved (getSettingsDefaults ("text") sampleControls) }
          none)] }, "new-field") ∧
    ∃ b', addNewField sampleControls
        { name := "blk", fields := some
            [("new-field", Field.mk { name := "new-field" } none)] }
        ("editor") none = .ok (b', "new-field-2") :=
  ⟨C8_addNewField.1 sampleControls { name := "blk", fields := some [] }
      (Or.inr rfl),
   C8_addNewField.2.1 sampleControls
      { name := "blk", fields := some
          [("new-field", Field.mk { name := "new-field" } none)] }
      _ rfl (by decide) (by decide)⟩

/-! ### Claim C7 -/

/-- C7 counterexample: duplicating the nested field `s` (one sibling,
three top-level fields) yields a clone with order `3`, the top-level
field count, not the sibling count `1`. -/
theorem C7_counterexample :
    (duplicateField blockNest { uniqueId := "s", name := "s", parent := some ("r") }).map
      (fun b => (getKey (b.fields.getD []) ("r")).map
        (fun r => (r.subFields.getD []).map
          (fun (q : String × Field) => (q.1, q.2.order))))
      = .ok (some [("s", 0), ("s-2", 3)]) ∧
    nestSubs.length = 1 := by
  constructor
  · rfl
  · rfl

/-- C7 (amended): `duplicateField` clones the field under the
identifier `name-n` freshly allocated from the original `name` (so the
follow-up number after `x-2` is `3`), preserves the `parent` attribute,
and sets the clone's order to the number of top-level fields of the
block (which equals the sibling count only for top-level fields). -/
theorem C7_duplicateField :
    (∀ (block : Block) (flds : Fields) (sel : SelectedField) (orig : Field),
      block.fields = some flds → sel.parent = none → sel.uniqueId = sel.name →
      sel.name ≠ "" → getKey flds sel.name = some orig →
      ∃ b' n, n = getNewFieldNumber flds sel.name ∧ 2 ≤ n ∧
        duplicateField block sel = .ok b' ∧
        b'.fields = some (setKey flds (suffixStr sel.name n)
            (Field.mk
              { orig.attrs with name := suffixStr sel.name n, order := flds.length }
              orig.subFields)) ∧
        (Field.mk
          { orig.attrs with name := suffixStr sel.name n, order := flds.length }
          orig.subFields).parent = orig.parent) ∧
    (∀ (block : Block) (flds : Fields) (sel : SelectedField) (p : String)
       (pf : Field) (subs : Fields) (orig : Field),
      block.fields = some flds → sel.parent = some p → p ≠ "" →
      sel.uniqueId = sel.name → sel.name ≠ "" →
      getKey flds p = some pf → pf.subFields = some subs →
      getKey subs sel.name = some orig →
      ∃ b' n, n = getNewFieldNumber subs sel.name ∧ 2 ≤ n ∧
        duplicateField block sel = .ok b' ∧
        b'.fields = some (setKey flds p (pf.withSubFields (some
            (setKey subs (suffixStr sel.name n)
              (Field.mk
                { orig.attrs with name := suffixStr sel.name n, order := flds.length }
                orig.subFields))))) ∧
        (Field.mk
          { orig.attrs with name := suffixStr sel.name n, order := flds.length }
          orig.subFields).parent = orig.parent) := by
  constructor
  · intro block flds sel orig hb hp huid hs hprev
    have hmem : sel.name ∈ keysOf flds := mem_keysOf_of_getKey hprev
    have hpos : 2 ≤ getNewFieldNumber flds sel.name := getNewFieldNumber_pos hmem
    have hn0 : ¬(getNewFieldNumber flds sel.name = 0) := by omega
    have hgf : getField block (some sel) = .ok (.found orig) := by
      rw [getField, huid]
      simp only [hs, if_neg hs, hb, hp, hprev]
      simp
    have hstep : duplicateField block sel
        = .ok { block with fields := some (setKey flds
            (suffixStr sel.name (getNewFieldNumber flds sel.name))
            (Field.mk
              { orig.attrs with
                name := suffixStr sel.name (getNewFieldNumber flds sel.name),
                order := flds.length }
              orig.subFields)) } := by
      simp only [duplicateField, hb, Option.getD_some, hgf, hp, hn0, if_neg hn0]
      simp
    exact ⟨_, _, rfl, hpos, hstep, rfl, rfl⟩
  · intro block flds sel p pf subs orig hb hpp hpe huid hs hpf hsubs hprev
    have hmem : sel.name ∈ keysOf subs := mem_keysOf_of_getKey hprev
    have hpos : 2 ≤ getNewFieldNumber subs sel.name := getNewFieldNumber_pos hmem
    have hn0 : ¬(getNewFieldNumber subs sel.name = 0) := by omega
    have hgf : getField block (some sel) = .ok (.found orig) := by
      rw [getField, huid]
      simp only [hs, if_neg hs, hb, hpp, if_neg hpe, hpf, hsubs, hprev]
      simp
    have hstep : duplicateField block sel
        = .ok { block with fields := some (setKey flds p (pf.withSubFields (some
            (setKey subs (suffixStr sel.name (getNewFieldNumber subs sel.name))
              (Field.mk
                { orig.attrs with
                  name := suffixStr sel.name (getNewFieldNumber subs sel.name),
                  order := flds.length }
                orig.subFields))))) } := by
      simp only [duplicateField, hb, Option.getD_some, hgf, hpp, hpf, hsubs,
        hn0, if_neg hn0]
      simp
    exact ⟨_, _, rfl, hpos, hstep, rfl, rfl⟩

/-- C7 witness: duplicating `x` when `x-2` exists allocates number `3`,
so the clone is `x-3`, with order the top-level count `2`. -/
theorem C7_witness :
    getNewFieldNumber xFields ("x") = 3 ∧ suffixStr ("x") 3 = "x-3" ∧
    ∃ b' n, n = getNewFieldNumber xFields ("x") ∧ 2 ≤ n ∧
      duplicateField blockX { uniqueId := "x", name := "x" } = .ok b' ∧
      b'.fields = some (setKey xFields (suffixStr ("x") n)
          (Field.mk
            { (plainField ("x") (some ("editor")) 0).attrs with
              name := suffixStr ("x") n, order := xFields.length }
            (plainField ("x") (some ("editor")) 0).subFields)) ∧
      (Field.mk
        { (plainField ("x") (some ("editor")) 0).attrs with
          name := suffixStr ("x") n, order := xFields.length }
        (plainField ("x") (some ("editor")) 0).subFields).parent
        = (plainField ("x") (some ("editor")) 0).parent :=
  ⟨rfl, rfl,
   C7_duplicateField.1 blockX xFields { uniqueId := "x", name := "x" }
     (plainField ("x") (some ("editor")) 0) rfl rfl rfl (by decide) rfl⟩

/-! ### Reorder characterization -/

theorem mem_swapAt {l : List Field} {i j : Nat} {x : Field}
    (hx : x ∈ swapAt l i j) : x ∈ l := by
  unfold swapAt at hx
  match h1 : l[i]?, h2 : l[j]? with
  | some fi, some fj =>
    rw [h1, h2] at hx
    obtain ⟨hlt1, he1⟩ := List.getElem?_eq_some.mp h1
    obtain ⟨hlt2, he2⟩ := List.getElem?_eq_some.mp h2
    have hfi : fi ∈ l := he1 ▸ List.getElem_mem hlt1
    have hfj : fj ∈ l := he2 ▸ List.getElem_mem hlt2
    rcases List.mem_or_eq_of_mem_set hx with hx2 | hx2
    · rcases List.mem_or_eq_of_mem_set hx2 with hx3 | hx3
      · exact hx3
      · exact hx3 ▸ hfj
    · exact hx2 ▸ hfi
  | some fi, none =>
    rw [h1, h2] at hx
    exact hx
  | none, some fj =>
    rw [h1, h2] at hx
    exact hx
  | none, none =>
    rw [h1, h2] at hx
    exact hx

/-- The complete effect of a top-level `reorderFields` on a well-formed
collection: the engine persists the normalized swap of the location's
group merged with the untouched complementary group, the location's
group of the result is exactly the normalized swap, and every
complementary-location field is preserved unchanged under its key. -/
theorem reorder_top_level (block : Block) (flds : Fields) (loc : String)
    (i j : Nat) (G OTH : List Field)
    (hb : block.fields = some flds) (hwf : wfFields flds)
    (hloc : loc = "editor" ∨ loc = "inspector")
    (hG : (getFieldsAsArray flds).filter (locMatches (some loc)) = G)
    (hOTH : (getFieldsAsArray flds).filter
      (locMatches (some (getOtherLocation loc))) = OTH)
    (hi : i < G.length) (hj : j < G.length) :
    reorderFields block i j loc none
      = .ok { block with fields := some (getFieldsAsObject
          (setCorrectOrderForFields (swapAt G i j) ++ OTH)) } ∧
    (getFieldsAsArray (getFieldsAsObject
        (setCorrectOrderForFields (swapAt G i j) ++ OTH))).filter
        (locMatches (some loc))
      = setCorrectOrderForFields (swapAt G i j) ∧
    (∀ k f, getKey flds k = some f →
      locMatches (some (getOtherLocation loc)) f = true →
      getKey (getFieldsAsObject
        (setCorrectOrderForFields (swapAt G i j) ++ OTH)) k = some f) := by
  have hvalsK : ∀ f ∈ flds.map Prod.snd, fieldKey f ≠ "" := by
    intro f hf
    simp only [List.mem_map] at hf
    obtain ⟨p, hp, hp2⟩ := hf
    subst hp2
    rw [wf_fieldKey hwf p hp]
    exact (hwf.2 p hp).2.2
  have hvalsNd : ((flds.map Prod.snd).map fieldKey).Nodup := by
    rw [wf_values_fieldKeys hwf]
    exact hwf.1
  have hsortP : (getFieldsAsArray flds).Perm (flds.map Prod.snd) :=
    sortByOrder_perm _
  have hGvals : ∀ f ∈ G, f ∈ flds.map Prod.snd := by
    intro f hf
    rw [← hG] at hf
    exact hsortP.mem_iff.mp (List.mem_of_mem_filter hf)
  have hOTHvals : ∀ f ∈ OTH, f ∈ flds.map Prod.snd := by
    intro f hf
    rw [← hOTH] at hf
    exact hsortP.mem_iff.mp (List.mem_of_mem_filter hf)
  have hGmatch : ∀ f ∈ G, locMatches (some loc) f = true := by
    intro f hf
    rw [← hG] at hf
    exact List.of_mem_filter hf
  have hOTHmatch : ∀ f ∈ OTH, locMatches (some (getOtherLocation loc)) f = true := by
    intro f hf
    rw [← hOTH] at hf
    exact List.of_mem_filter hf
  have hNmem : ∀ g ∈ setCorrectOrderForFields (swapAt G i j),
      ∃ f ∈ G, ∃ m, g = f.withOrder m := by
    intro g hg
    obtain ⟨f, hf, m, hm⟩ := mem_setOrdersFrom hg
    exact ⟨f, mem_swapAt hf, m, hm⟩
  -- keys of the merged sequence are nonempty and distinct
  have hkeysNe : ∀ f ∈ setCorrectOrderForFields (swapAt G i j) ++ OTH,
      fieldKey f ≠ "" := by
    intro f hf
    rcases List.mem_append.mp hf with hf | hf
    · obtain ⟨f0, hf0, m, rfl⟩ := hNmem f hf
      rw [fieldKey_withOrder]
      exact hvalsK f0 (hGvals f0 hf0)
    · exact hvalsK f (hOTHvals f hf)
  have hsortNd : ((getFieldsAsArray flds).map fieldKey).Nodup :=
    ((hsortP.map fieldKey).nodup_iff).mpr hvalsNd
  have hGkeysNd : (G.map fieldKey).Nodup := by
    have hsub : (G.map fieldKey).Sublist ((getFieldsAsArray flds).map fieldKey) := by
      rw [← hG]
      exact List.Sublist.map fieldKey (List.filter_sublist _)
    exact hsub.nodup hsortNd
  have hOTHkeysNd : (OTH.map fieldKey).Nodup := by
    have hsub : (OTH.map fieldKey).Sublist ((getFieldsAsArray flds).map fieldKey) := by
      rw [← hOTH]
      exact List.Sublist.map fieldKey (List.filter_sublist _)
    exact hsub.nodup hsortNd
  have hNkeys : (setCorrectOrderForFields (swapAt G i j)).map fieldKey
      = (swapAt G i j).map fieldKey := setOrdersFrom_map_fieldKey 0 _
  have hswapKeysNd : ((swapAt G i j).map fieldKey).Nodup :=
    (((swapAt_perm hi hj).map fieldKey).nodup_iff).mpr hGkeysNd
  have hdisj : ∀ x, x ∈ (swapAt G i j).map fieldKey → x ∈ OTH.map fieldKey → False := by
    intro x hx1 hx2
    simp only [List.mem_map] at hx1 hx2
    obtain ⟨f1, hf1, hf1k⟩ := hx1
    obtain ⟨f2, hf2, hf2k⟩ := hx2
    have hf1G : f1 ∈ G := mem_swapAt hf1
    have heq : f1 = f2 := by
      apply wf_value_eq_of_fieldKey hwf (hGvals f1 hf1G) (hOTHvals f2 hf2)
      rw [hf1k, hf2k]
    exact locMatches_other_exclusive hloc f1
      ⟨hGmatch f1 hf1G, heq ▸ hOTHmatch f2 hf2⟩
  have hkeysNd : ((setCorrectOrderForFields (swapAt G i j) ++ OTH).map fieldKey).Nodup := by
    rw [List.map_append, hNkeys]
    refine List.Nodup.append hswapKeysNd hOTHkeysNd ?_
    intro x hx1 hx2
    exact hdisj x hx1 hx2
  -- the persisted collection
  have hNlen : (setCorrectOrderForFields (swapAt G i j)).length = G.length := by
    simp only [setCorrectOrderForFields, setOrdersFrom_length, swapAt_length]
  have hNord : (setCorrectOrderForFields (swapAt G i j)).map Field.order
      = List.range' 0 (setCorrectOrderForFields (swapAt G i j)).length := by
    rw [setCorrectOrderForFields_map_order, List.range_eq_range']
    simp only [setCorrectOrderForFields, setOrdersFrom_length, swapAt_length]
  have hfilter : (setCorrectOrderForFields (swapAt G i j) ++ OTH).filter
      (locMatches (some loc)) = setCorrectOrderForFields (swapAt G i j) := by
    rw [List.filter_append]
    have h1 : (setCorrectOrderForFields (swapAt G i j)).filter (locMatches (some loc))
        = setCorrectOrderForFields (swapAt G i j) := by
      apply List.filter_eq_self.mpr
      intro g hg
      obtain ⟨f0, hf0, m, rfl⟩ := hNmem g hg
      rw [locMatches_withOrder]
      exact hGmatch f0 hf0
    have h2 : OTH.filter (locMatches (some loc)) = [] := by
      apply List.filter_eq_nil_iff.mpr
      intro f hf
      intro hmatch
      exact locMatches_other_exclusive hloc f ⟨hmatch, hOTHmatch f hf⟩
    rw [h1, h2, List.append_nil]
  have hgroup : (getFieldsAsArray (getFieldsAsObject
      (setCorrectOrderForFields (swapAt G i j) ++ OTH))).filter (locMatches (some loc))
      = setCorrectOrderForFields (swapAt G i j) := by
    rw [getFieldsAsArray_obj hkeysNe hkeysNd]
    exact filter_sortByOrder_eq hfilter hNord
  have hGlen0 : ¬(G.length = 0) := by omega
  refine ⟨?_, hgroup, ?_⟩
  · have hP1 : getFieldsForLocation block (some loc) none = .ok (some G) := by
      simp only [getFieldsForLocation, hb, hG]
    have hP3 : getFieldsForLocation block (some (getOtherLocation loc)) none
        = .ok (some OTH) := by
      simp only [getFieldsForLocation, hb, hOTH]
    simp only [reorderFields, hP1, hP3, hGlen0, if_neg hGlen0]
    simp
  · intro k f hk hmatch
    have hkf : (k, f) ∈ flds := getKey_mem hk
    have hfk : fieldKey f = k := wf_fieldKey hwf (k, f) hkf
    have hfvals : f ∈ flds.map Prod.snd := by
      simp only [List.mem_map]
      exact ⟨(k, f), hkf, rfl⟩
    have hfOTH : f ∈ OTH := by
      rw [← hOTH]
      apply List.mem_filter.mpr
      exact ⟨hsortP.mem_iff.mpr hfvals, hmatch⟩
    have hfmem : f ∈ setCorrectOrderForFields (swapAt G i j) ++ OTH :=
      List.mem_append.mpr (Or.inr hfOTH)
    rw [← hfk]
    exact getKey_obj hkeysNe hkeysNd hfmem

/-- The complete effect of a parent-scoped `reorderFields` on a
well-formed sub-field collection: the engine persists the parent field
with its `sub_fields` replaced by the normalized swap of the queried
group, and sorting that persisted sub-collection back gives exactly
the normalized swap. -/
theorem reorder_nested (block : Block) (flds : Fields) (p : String)
    (pf : Field) (subs : Fields) (loc : String) (i j : Nat) (G : List Field)
    (hb : block.fields = some flds) (hp : getKey flds p = some pf)
    (hsubs : pf.subFields = some subs) (hwfs : wfFields subs)
    (hG : (getFieldsAsArray subs).filter (locMatches (some loc)) = G)
    (hi : i < G.length) (hj : j < G.length) :
    reorderFields block i j loc (some p)
      = .ok { block with fields := some (setKey flds p (pf.withSubFields
          (some (getFieldsAsObject (setCorrectOrderForFields (swapAt G i j)))))) } ∧
    (getFieldsAsArray (getFieldsAsObject
        (setCorrectOrderForFields (swapAt G i j)))).filter (locMatches (some loc))
      = setCorrectOrderForFields (swapAt G i j) := by
  have hvalsK : ∀ f ∈ subs.map Prod.snd, fieldKey f ≠ "" := by
    intro f hf
    simp only [List.mem_map] at hf
    obtain ⟨q, hq, hq2⟩ := hf
    subst hq2
    rw [wf_fieldKey hwfs q hq]
    exact (hwfs.2 q hq).2.2
  have hvalsNd : ((subs.map Prod.snd).map fieldKey).Nodup := by
    rw [wf_values_fieldKeys hwfs]
    exact hwfs.1
  have hsortP : (getFieldsAsArray subs).Perm (subs.map Prod.snd) :=
    sortByOrder_perm _
  have hGvals : ∀ f ∈ G, f ∈ subs.map Prod.snd := by
    intro f hf
    rw [← hG] at hf
    exact hsortP.mem_iff.mp (List.mem_of_mem_filter hf)
  have hGmatch : ∀ f ∈ G, locMatches (some loc) f = true := by
    intro f hf
    rw [← hG] at hf
    exact List.of_mem_filter hf
  have hNmem : ∀ g ∈ setCorrectOrderForFields (swapAt G i j),
      ∃ f ∈ G, ∃ m, g = f.withOrder m := by
    intro g hg
    obtain ⟨f, hf, m, hm⟩ := mem_setOrdersFrom hg
    exact ⟨f, mem_swapAt hf, m, hm⟩
  have hkeysNe : ∀ f ∈ setCorrectOrderForFields (swapAt G i j),
      fieldKey f ≠ "" := by
    intro f hf
    obtain ⟨f0, hf0, m, rfl⟩ := hNmem f hf
    rw [fieldKey_withOrder]
    exact hvalsK f0 (hGvals f0 hf0)
  have hsortNd : ((getFieldsAsArray subs).map fieldKey).Nodup :=
    ((hsortP.map fieldKey).nodup_iff).mpr hvalsNd
  have hGkeysNd : (G.map fieldKey).Nodup := by
    have hsub : (G.map fieldKey).Sublist ((getFieldsAsArray subs).map fieldKey) := by
      rw [← hG]
      exact List.Sublist.map fieldKey (List.filter_sublist _)
    exact hsub.nodup hsortNd
  have hNkeys : (setCorrectOrderForFields (swapAt G i j)).map fieldKey
      = (swapAt G i j).map fieldKey := setOrdersFrom_map_fieldKey 0 _
  have hkeysNd : ((setCorrectOrderForFields (swapAt G i j)).map fieldKey).Nodup := by
    rw [hNkeys]
    exact (((swapAt_perm hi hj).map fieldKey).nodup_iff).mpr hGkeysNd
  have hNord : (setCorrectOrderForFields (swapAt G i j)).map Field.order
      = List.range' 0 (setCorrectOrderForFields (swapAt G i j)).length := by
    rw [setCorrectOrderForFields_map_order, List.range_eq_range']
    simp only [setCorrectOrderForFields, setOrdersFrom_length, swapAt_length]
  have hfilter : (setCorrectOrderForFields (swapAt G i j)).filter
      (locMatches (some loc)) = setCorrectOrderForFields (swapAt G i j) := by
    apply List.filter_eq_self.mpr
    intro g hg
    obtain ⟨f0, hf0, m, rfl⟩ := hNmem g hg
    rw [locMatches_withOrder]
    exact hGmatch f0 hf0
  have hgroup : (getFieldsAsArray (getFieldsAsObject
      (setCorrectOrderForFields (swapAt G i j)))).filter (locMatches (some loc))
      = setCorrectOrderForFields (swapAt G i j) := by
    rw [getFieldsAsArray_obj hkeysNe hkeysNd]
    exact filter_sortByOrder_eq hfilter hNord
  have hGlen0 : ¬(G.length = 0) := by omega
  refine ⟨?_, hgroup⟩
  have hP1 : getFieldsForLocation block (some loc) (some p) = .ok (some G) := by
    simp only [getFieldsForLocation, hb, hp, hsubs, hG]
  simp only [reorderFields, hP1, hGlen0, if_neg hGlen0, hb, hp]
  simp

/-! ### Claim C1 -/

/-- C1 counterexample: on a block whose sibling collection spans two
locations, `addNewField` persists an editor group of size two whose
order values are `{0, 2}`, not `{0, 1}`: the claimed invariant fails
for `addNewField`, which never runs the normalizer. -/
theorem C1_counterexample :
    (addNewField sampleControls blockTwoLoc ("editor") none).map
      (fun p => (getFieldsForLocation p.1 (some ("editor")) none).map
        (Option.map (fun l => l.map Field.order)))
      = .ok (.ok (some [0, 2])) ∧
    [0, 2] ≠ List.range 2 := by
  constructor
  · rfl
  · decide

/-- C1 (amended): the ordering normalizer always produces the dense
zero-based ranking, and the mutations that end with it — here
`reorderFields` at top level — persist a block whose mutated
(parent, location) group has order set exactly `{0, …, k-1}`;
`addNewField` and `duplicateField` instead persist the sibling-count
order without normalizing, which is dense only when the group is the
whole sibling collection (see the counterexample). -/
theorem C1_ordering_invariant :
    (∀ fs : List Field,
      (setCorrectOrderForFields fs).map Field.order = List.range fs.length) ∧
    (∀ (block : Block) (flds : Fields) (loc : String) (i j : Nat)
       (G : List Field),
      block.fields = some flds → wfFields flds →
      (loc = "editor" ∨ loc = "inspector") →
      (getFieldsAsArray flds).filter (locMatches (some loc)) = G →
      i < G.length → j < G.length →
      ∃ flds2 G2, reorderFields block i j loc none
          = .ok { block with fields := some flds2 } ∧
        getFieldsForLocation { block with fields := some flds2 } (some loc) none
          = .ok (some G2) ∧
        G2.map Field.order = List.range G2.length ∧
        G2.length = G.length) := by
  constructor
  · exact setCorrectOrderForFields_map_order
  · intro block flds loc i j G hb hwf hloc hG hi hj
    obtain ⟨hred, hgrp, _⟩ :=
      reorder_top_level block flds loc i j G _ hb hwf hloc hG rfl hi hj
    refine ⟨_, setCorrectOrderForFields (swapAt G i j), hred, ?_, ?_, ?_⟩
    · simp only [getFieldsForLocation]
      rw [hgrp]
    · rw [setCorrectOrderForFields_map_order]
      simp only [setCorrectOrderForFields, setOrdersFrom_length]
    · simp only [setCorrectOrderForFields, setOrdersFrom_length, swapAt_length]

/-- C1 witness: swapping the two editor fields of the sample block
yields an editor group with dense orders. -/
theorem C1_witness :
    ∃ flds2 G2, reorderFields blockAB 0 1 ("editor") none
        = .ok { blockAB with fields := some flds2 } ∧
      getFieldsForLocation { blockAB with fields := some flds2 }
          (some ("editor")) none = .ok (some G2) ∧
      G2.map Field.order = List.range G2.length ∧
      G2.length = ([plainField ("a") (some ("editor")) 0,
        plainField ("c") (some ("editor")) 1] : List Field).length :=
  C1_ordering_invariant.2 blockAB abFields ("editor") 0 1
    [plainField ("a") (some ("editor")) 0, plainField ("c") (some ("editor")) 1]
    rfl (by decide) (Or.inl rfl) rfl (by decide) (by decide)

/-! ### Claim C5 -/

/-- C5: `reorderFields(fromIndex, toIndex, location, parentId?)`
exchanges exactly the elements at the two indices of the queried
ordered sequence — a single pairwise swap, not an insert-and-shift —
and then re-normalizes the orders: the resulting group is the
normalizer applied to the pairwise swap, so its name sequence is the
swapped name sequence and its orders are re-ranked `{0, …, k-1}`.
Scoped to a top-level location, the complementary location's fields are
preserved unchanged in the resulting collection; scoped to a parent
identifier, the swap and re-normalization happen inside that parent's
`sub_fields`. -/
theorem C5_reorderFields :
    (∀ (block : Block) (flds : Fields) (loc : String) (i j : Nat)
       (G : List Field),
      block.fields = some flds → wfFields flds →
      (loc = "editor" ∨ loc = "inspector") →
      (getFieldsAsArray flds).filter (locMatches (some loc)) = G →
      i < G.length → j < G.length →
      ∃ flds2, reorderFields block i j loc none
          = .ok { block with fields := some flds2 } ∧
        ∃ G2, getFieldsForLocation { block with fields := some flds2 }
            (some loc) none = .ok (some G2) ∧
          G2 = setCorrectOrderForFields (swapAt G i j) ∧
          G2.map Field.name = (swapAt G i j).map Field.name ∧
          G2.map Field.order = List.range G.length ∧
          (∀ k f, getKey flds k = some f →
            locMatches (some (getOtherLocation loc)) f = true →
            getKey flds2 k = some f)) ∧
    (∀ (block : Block) (flds : Fields) (p : String) (pf : Field)
       (subs : Fields) (loc : String) (i j : Nat) (G : List Field),
      block.fields = some flds → getKey flds p = some pf →
      pf.subFields = some subs → wfFields subs →
      (getFieldsAsArray subs).filter (locMatches (some loc)) = G →
      i < G.length → j < G.length →
      ∃ flds2, reorderFields block i j loc (some p)
          = .ok { block with fields := some flds2 } ∧
        ∃ G2, getFieldsForLocation { block with fields := some flds2 }
            (some loc) (some p) = .ok (some G2) ∧
          G2 = setCorrectOrderForFields (swapAt G i j) ∧
          G2.map Field.name = (swapAt G i j).map Field.name ∧
          G2.map Field.order = List.range G.length) := by
  constructor
  · intro block flds loc i j G hb hwf hloc hG hi hj
    obtain ⟨hred, hgrp, hpres⟩ :=
      reorder_top_level block flds loc i j G _ hb hwf hloc hG rfl hi hj
    refine ⟨_, hred, setCorrectOrderForFields (swapAt G i j), ?_, rfl, ?_, ?_, hpres⟩
    · simp only [getFieldsForLocation]
      rw [hgrp]
    · exact setOrdersFrom_map_name 0 _
    · rw [setCorrectOrderForFields_map_order, swapAt_length]
  · intro block flds p pf subs loc i j G hb hp hsubs hwfs hG hi hj
    obtain ⟨hred, hgrp⟩ :=
      reorder_nested block flds p pf subs loc i j G hb hp hsubs hwfs hG hi hj
    refine ⟨_, hred, setCorrectOrderForFields (swapAt G i j), ?_, rfl, ?_, ?_⟩
    · simp only [getFieldsForLocation, getKey_setKey_self,
        Field.withSubFields, Field.subFields_mk]
      rw [hgrp]
    · exact setOrdersFrom_map_name 0 _
    · rw [setCorrectOrderForFields_map_order, swapAt_length]

/-- C5 witness: at top level, swapping the editor group `a` (order 0),
`c` (order 1) of the sample block gives the group `c`, `a` with orders
0 and 1 (names swapped, not shifted) and the inspector field preserved;
scoped to the parent repeater `r`, swapping its two sub-fields `s1`,
`s2` gives the sub-group `s2`, `s1` with orders 0 and 1. -/
theorem C5_witness :
    (∃ flds2, reorderFields blockAB 0 1 ("editor") none
        = .ok { blockAB with fields := some flds2 } ∧
      ∃ G2, getFieldsForLocation { blockAB with fields := some flds2 }
          (some ("editor")) none = .ok (some G2) ∧
        G2 = setCorrectOrderForFields (swapAt
          [plainField ("a") (some ("editor")) 0,
           plainField ("c") (some ("editor")) 1] 0 1) ∧
        G2.map Field.name = (swapAt
          [plainField ("a") (some ("editor")) 0,
           plainField ("c") (some ("editor")) 1] 0 1).map Field.name ∧
        G2.map Field.order = List.range ([plainField ("a") (some ("editor")) 0,
          plainField ("c") (some ("editor")) 1] : List Field).length ∧
        (∀ k f, getKey abFields k = some f →
          locMatches (some (getOtherLocation ("editor"))) f = true →
          getKey flds2 k = some f)) ∧
    (∃ flds2, reorderFields blockNest2 0 1 ("editor") (some ("r"))
        = .ok { blockNest2 with fields := some flds2 } ∧
      ∃ G2, getFieldsForLocation { blockNest2 with fields := some flds2 }
          (some ("editor")) (some ("r")) = .ok (some G2) ∧
        G2 = setCorrectOrderForFields (swapAt [sub1, sub2] 0 1) ∧
        G2.map Field.name = (swapAt [sub1, sub2] 0 1).map Field.name ∧
        G2.map Field.order = List.range ([sub1, sub2] : List Field).length) :=
  ⟨C5_reorderFields.1 blockAB abFields ("editor") 0 1
    [plainField ("a") (some ("editor")) 0, plainField ("c") (some ("editor")) 1]
    rfl (by decide) (Or.inl rfl) rfl (by decide) (by decide),
   C5_reorderFields.2 blockNest2 [("r", repeater2)] ("r") repeater2 twoSubs
    ("editor") 0 1 [sub1, sub2]
    rfl rfl rfl (by decide) rfl (by decide) (by decide)⟩

/-! ### Claim C3 -/

@[simp] theorem Field.order_mergeNewSettings (f : Field) (ns : NewSettings) :
    (mergeNewSettings f ns).order = f.order := rfl

@[simp] theorem Field.uniqueId_mergeNewSettings (f : Field) (ns : NewSettings) :
    (mergeNewSettings f ns).uniqueId = f.uniqueId := rfl

theorem Field.location_mergeNewSettings {ns : NewSettings} {l : String}
    (f : Field) (h : ns.location = some l) :
    (mergeNewSettings f ns).location = some l := by
  simp [mergeNewSettings, Field.location, h]

theorem Field.name_mergeNewSettings {ns : NewSettings} (f : Field)
    (h : ns.name = none) : (mergeNewSettings f ns).name = f.name := by
  simp [mergeNewSettings, Field.name, h]

theorem locMatches_of_location_eq {f : Field} {l : String}
    (h : f.location = some l) : locMatches (some l) f = true := by
  simp [locMatches, h]

theorem locMatches_false_of_location_ne {f : Field} {l l' : String}
    (h : f.location = some l') (hne : l ≠ l') (hne2 : l' ≠ "") :
    locMatches (some l) f = false := by
  simp only [locMatches, h, strFalsy, Bool.or_eq_false_iff, Bool.and_eq_false_iff]
  constructor
  · simp only [decide_eq_false_iff_not]
    intro hh
    exact hne (Option.some.inj hh)
  · left
    simp only [decide_eq_false_iff_not]
    exact hne2

/-- C3 counterexample: `changeFieldSettings` with a `location` key
equal to the field's current location still runs the location move: on
the block with editor fields `a` (order 0) and `c` (order 1) the
persisted collection becomes `c` with order 1 and `a` with order 2 —
not a pure merge, the claimed "only when different" fails. -/
theorem C3_counterexample :
    (changeFieldSettings
        { name := "blk", fields := some
            [("a", plainField ("a") (some ("editor")) 0),
             ("c", plainField ("c") (some ("editor")) 1)] }
        { uniqueId := "a", name := "a" }
        { location := some ("editor") }).map
      (fun b => (b.fields.getD []).map (fun (q : String × Field) => (q.1, q.2.order)))
      = .ok [("c", 1), ("a", 2)] ∧
    (plainField ("a") (some ("editor")) 0).location = some ("editor") := by
  constructor
  · rfl
  · rfl

/-- C3 (amended): `changeFieldSettings` runs the location move whenever
`newSettings` has a `location` key — even one equal to the current
location (see the counterexample) — and the move precedes the merge.
When the new location differs from the field's current location, the
persisted block satisfies the claimed postconditions: the old
location's group no longer contains the field, the new location's group
contains it, and both groups have dense zero-based orders. -/
theorem C3_location_move (block : Block) (flds : Fields)
    (sel : SelectedField) (ns : NewSettings) (fld : Field)
    (oldLoc newLoc : String)
    (hb : block.fields = some flds) (hwf : wfFields flds)
    (hsel1 : sel.parent = none) (hsel2 : sel.uniqueId = sel.name)
    (hfld : getKey flds sel.name = some fld)
    (hold : fld.location = some oldLoc)
    (hnsl : ns.location = some newLoc) (hnsn : ns.name = none)
    (hdiff : oldLoc ≠ newLoc) (hne : newLoc ≠ "")
    (hexcl : ∀ p ∈ flds, ¬(locMatches (some oldLoc) (p.2 : Field) = true ∧
      locMatches (some newLoc) (p.2 : Field) = true)) :
    ∃ flds2, changeFieldSettings block sel ns
        = .ok { block with fields := some flds2 } ∧
      (∃ Gold, getFieldsForLocation { block with fields := some flds2 }
          (some oldLoc) none = .ok (some Gold) ∧
        sel.name ∉ Gold.map Field.name ∧
        Gold.map Field.order = List.range Gold.length) ∧
      (∃ Gnew, getFieldsForLocation { block with fields := some flds2 }
          (some newLoc) none = .ok (some Gnew) ∧
        sel.name ∈ Gnew.map Field.name ∧
        Gnew.map Field.order = List.range Gnew.length) := by
  -- the entry of the moved field and its well-formed attributes
  have hfldmem : (sel.name, fld) ∈ flds := getKey_mem hfld
  obtain ⟨hflduid, hfldname, hselne⟩ := hwf.2 _ hfldmem
  -- generic facts about the values of the collection
  have hvalsK : ∀ f ∈ flds.map Prod.snd, fieldKey f ≠ "" := by
    intro f hf
    simp only [List.mem_map] at hf
    obtain ⟨p, hp, hp2⟩ := hf
    subst hp2
    rw [wf_fieldKey hwf p hp]
    exact (hwf.2 p hp).2.2
  have hvalsNd : ((flds.map Prod.snd).map fieldKey).Nodup := by
    rw [wf_values_fieldKeys hwf]
    exact hwf.1
  have hkey_eq_name : ∀ g ∈ flds.map Prod.snd, fieldKey g = g.name := by
    intro g hg
    simp only [List.mem_map] at hg
    obtain ⟨p, hp, hp2⟩ := hg
    subst hp2
    rw [wf_fieldKey hwf p hp]
    exact ((hwf.2 p hp).2.1).symm
  have hexcl2 : ∀ g ∈ flds.map Prod.snd,
      ¬(locMatches (some oldLoc) g = true ∧ locMatches (some newLoc) g = true) := by
    intro g hg
    simp only [List.mem_map] at hg
    obtain ⟨p, hp, hp2⟩ := hg
    subst hp2
    exact hexcl p hp
  have hsortP : (getFieldsAsArray flds).Perm (flds.map Prod.snd) :=
    sortByOrder_perm _
  have hfldvals : fld ∈ flds.map Prod.snd := by
    simp only [List.mem_map]
    exact ⟨(sel.name, fld), hfldmem, rfl⟩
  have hfldkey : fieldKey fld = sel.name := by
    rw [hkey_eq_name fld hfldvals]
    exact hfldname
  have hsortNd : ((getFieldsAsArray flds).map fieldKey).Nodup :=
    ((hsortP.map fieldKey).nodup_iff).mpr hvalsNd
  -- the two groups read by the move
  have hget_old : getFieldsForLocation block (some oldLoc) none
      = .ok (some ((getFieldsAsArray flds).filter (locMatches (some oldLoc)))) := by
    simp only [getFieldsForLocation, hb]
  have hget_new : getFieldsForLocation block (some newLoc) none
      = .ok (some ((getFieldsAsArray flds).filter (locMatches (some newLoc)))) := by
    simp only [getFieldsForLocation, hb]
  -- membership facts for the group pieces
  have hprevVals : ∀ f ∈ (getFieldsAsArray flds).filter (locMatches (some oldLoc)),
      f ∈ flds.map Prod.snd :=
    fun f hf => hsortP.mem_iff.mp (List.mem_of_mem_filter hf)
  have hnewVals : ∀ f ∈ (getFieldsAsArray flds).filter (locMatches (some newLoc)),
      f ∈ flds.map Prod.snd :=
    fun f hf => hsortP.mem_iff.mp (List.mem_of_mem_filter hf)
  have hAVals : ∀ f ∈ ((getFieldsAsArray flds).filter (locMatches (some oldLoc))).filter
      (fun f => f.name ≠ sel.name), f ∈ flds.map Prod.snd :=
    fun f hf => hprevVals f (List.mem_of_mem_filter hf)
  have hAmatch : ∀ f ∈ ((getFieldsAsArray flds).filter (locMatches (some oldLoc))).filter
      (fun f => f.name ≠ sel.name), locMatches (some oldLoc) f = true :=
    fun f hf => List.of_mem_filter (List.mem_of_mem_filter hf)
  have hAname : ∀ f ∈ ((getFieldsAsArray flds).filter (locMatches (some oldLoc))).filter
      (fun f => f.name ≠ sel.name), f.name ≠ sel.name := by
    intro f hf
    have := List.of_mem_filter hf
    simpa using this
  have hnewMatch : ∀ f ∈ (getFieldsAsArray flds).filter (locMatches (some newLoc)),
      locMatches (some newLoc) f = true :=
    fun f hf => List.of_mem_filter hf
  -- keys of the pieces
  have hAkeysNd : ((((getFieldsAsArray flds).filter (locMatches (some oldLoc))).filter
      (fun f => f.name ≠ sel.name)).map fieldKey).Nodup := by
    have hsub : (((((getFieldsAsArray flds).filter (locMatches (some oldLoc))).filter
        (fun f => f.name ≠ sel.name))).map fieldKey).Sublist
        ((getFieldsAsArray flds).map fieldKey) :=
      List.Sublist.map fieldKey
        ((List.filter_sublist _).trans (List.filter_sublist _))
    exact hsub.nodup hsortNd
  have hNwkeysNd : (((getFieldsAsArray flds).filter (locMatches (some newLoc))).map
      fieldKey).Nodup := by
    have hsub : ((((getFieldsAsArray flds).filter (locMatches (some newLoc)))).map
        fieldKey).Sublist ((getFieldsAsArray flds).map fieldKey) :=
      List.Sublist.map fieldKey (List.filter_sublist _)
    exact hsub.nodup hsortNd
  have hdisjAN : ∀ x, x ∈ (((getFieldsAsArray flds).filter (locMatches (some oldLoc))).filter
      (fun f => f.name ≠ sel.name)).map fieldKey →
      x ∈ ((getFieldsAsArray flds).filter (locMatches (some newLoc))).map fieldKey →
      False := by
    intro x hx1 hx2
    simp only [List.mem_map] at hx1 hx2
    obtain ⟨f1, hf1, hf1k⟩ := hx1
    obtain ⟨f2, hf2, hf2k⟩ := hx2
    have heq : f1 = f2 := by
      apply wf_value_eq_of_fieldKey hwf (hAVals f1 hf1) (hnewVals f2 hf2)
      rw [hf1k, hf2k]
    exact hexcl2 f1 (hAVals f1 hf1) ⟨hAmatch f1 hf1, heq ▸ hnewMatch f2 hf2⟩
  have hselNotA : sel.name ∉ (((getFieldsAsArray flds).filter (locMatches (some oldLoc))).filter
      (fun f => f.name ≠ sel.name)).map fieldKey := by
    intro hx
    simp only [List.mem_map] at hx
    obtain ⟨f1, hf1, hf1k⟩ := hx
    rw [hkey_eq_name f1 (hAVals f1 hf1)] at hf1k
    exact hAname f1 hf1 hf1k
  have hselNotNw : sel.name ∉ ((getFieldsAsArray flds).filter
      (locMatches (some newLoc))).map fieldKey := by
    intro hx
    simp only [List.mem_map] at hx
    obtain ⟨f2, hf2, hf2k⟩ := hx
    have heq : f2 = fld := by
      apply wf_value_eq_of_fieldKey hwf (hnewVals f2 hf2) hfldvals
      rw [hf2k, hfldkey]
    exact hexcl2 fld hfldvals
      ⟨locMatches_of_location_eq hold, heq ▸ hnewMatch f2 hf2⟩
  -- the normalized merged sequence persisted by the move
  have hNBsplit : setCorrectOrderForFields
      (((getFieldsAsArray flds).filter (locMatches (some newLoc))) ++ [fld])
      = setCorrectOrderForFields ((getFieldsAsArray flds).filter (locMatches (some newLoc)))
        ++ [fld.withOrder ((getFieldsAsArray flds).filter (locMatches (some newLoc))).length] := by
    simp only [setCorrectOrderForFields]
    rw [setOrdersFrom_append]
    simp [setOrdersFrom]
  have hNAkeys : (setCorrectOrderForFields (((getFieldsAsArray flds).filter
      (locMatches (some oldLoc))).filter (fun f => f.name ≠ sel.name))).map fieldKey
      = (((getFieldsAsArray flds).filter (locMatches (some oldLoc))).filter
        (fun f => f.name ≠ sel.name)).map fieldKey :=
    setOrdersFrom_map_fieldKey 0 _
  have hNBkeys : (setCorrectOrderForFields
      (((getFieldsAsArray flds).filter (locMatches (some newLoc))) ++ [fld])).map fieldKey
      = ((getFieldsAsArray flds).filter (locMatches (some newLoc))).map fieldKey
        ++ [sel.name] := by
    rw [show (setCorrectOrderForFields
        (((getFieldsAsArray flds).filter (locMatches (some newLoc))) ++ [fld])).map fieldKey
        = (((getFieldsAsArray flds).filter (locMatches (some newLoc))) ++ [fld]).map fieldKey
      from setOrdersFrom_map_fieldKey 0 _]
    rw [List.map_append]
    simp [hfldkey]
  have hkeysNe : ∀ f ∈ setCorrectOrderForFields (((getFieldsAsArray flds).filter
        (locMatches (some oldLoc))).filter (fun f => f.name ≠ sel.name))
      ++ setCorrectOrderForFields
        (((getFieldsAsArray flds).filter (locMatches (some newLoc))) ++ [fld]),
      fieldKey f ≠ "" := by
    intro f hf
    rcases List.mem_append.mp hf with hf | hf
    · obtain ⟨f0, hf0, mm, rfl⟩ := mem_setOrdersFrom hf
      rw [fieldKey_withOrder]
      exact hvalsK f0 (hAVals f0 hf0)
    · obtain ⟨f0, hf0, mm, rfl⟩ := mem_setOrdersFrom hf
      rw [fieldKey_withOrder]
      rcases List.mem_append.mp hf0 with hf0 | hf0
      · exact hvalsK f0 (hnewVals f0 hf0)
      · rw [List.mem_singleton.mp hf0]
        exact hvalsK fld hfldvals
  have hkeysNd : ((setCorrectOrderForFields (((getFieldsAsArray flds).filter
        (locMatches (some oldLoc))).filter (fun f => f.name ≠ sel.name))
      ++ setCorrectOrderForFields
        (((getFieldsAsArray flds).filter (locMatches (some newLoc))) ++ [fld])).map
      fieldKey).Nodup := by
    rw [List.map_append, hNAkeys, hNBkeys]
    refine List.Nodup.append hAkeysNd ?_ ?_
    · refine List.Nodup.append hNwkeysNd (List.nodup_singleton _) ?_
      intro x hx1 hx2
      rw [List.mem_singleton.mp hx2] at hx1
      exact hselNotNw hx1
    · intro x hx1 hx2
      rcases List.mem_append.mp hx2 with hx2 | hx2
      · exact hdisjAN x hx1 hx2
      · rw [List.mem_singleton.mp hx2] at hx1
        exact hselNotA hx1
  -- the location move
  have hmove : changeFieldLocation block block.fields sel newLoc
      = .ok (getFieldsAsObject
          (setCorrectOrderForFields (((getFieldsAsArray flds).filter
            (locMatches (some oldLoc))).filter (fun f => f.name ≠ sel.name))
          ++ setCorrectOrderForFields
            (((getFieldsAsArray flds).filter (locMatches (some newLoc))) ++ [fld]))) := by
    rw [hb]
    simp only [changeFieldLocation, hfld, hold, hget_old, hget_new]
  -- the current field the merge reads back, and the merge itself
  have hfldmMem : fld.withOrder ((getFieldsAsArray flds).filter
        (locMatches (some newLoc))).length
      ∈ setCorrectOrderForFields (((getFieldsAsArray flds).filter
          (locMatches (some oldLoc))).filter (fun f => f.name ≠ sel.name))
        ++ setCorrectOrderForFields
          (((getFieldsAsArray flds).filter (locMatches (some newLoc))) ++ [fld]) := by
    refine List.mem_append.mpr (Or.inr ?_)
    rw [hNBsplit]
    exact List.mem_append.mpr (Or.inr (List.mem_singleton.mpr rfl))
  have hfldmKey : fieldKey (fld.withOrder ((getFieldsAsArray flds).filter
      (locMatches (some newLoc))).length) = sel.name := by
    rw [fieldKey_withOrder]
    exact hfldkey
  have hcur : getKey (getFieldsAsObject
      (setCorrectOrderForFields (((getFieldsAsArray flds).filter
          (locMatches (some oldLoc))).filter (fun f => f.name ≠ sel.name))
        ++ setCorrectOrderForFields
          (((getFieldsAsArray flds).filter (locMatches (some newLoc))) ++ [fld])))
      sel.name
      = some (fld.withOrder ((getFieldsAsArray flds).filter
          (locMatches (some newLoc))).length) := by
    have h0 := getKey_obj hkeysNe hkeysNd hfldmMem
    rw [hfldmKey] at h0
    exact h0
  have hsettings : changeFieldSettings block sel ns
      = .ok { block with fields := some (setKey
          (getFieldsAsObject
            (setCorrectOrderForFields (((getFieldsAsArray flds).filter
                (locMatches (some oldLoc))).filter (fun f => f.name ≠ sel.name))
              ++ setCorrectOrderForFields
                (((getFieldsAsArray flds).filter (locMatches (some newLoc))) ++ [fld])))
          sel.name
          (mergeNewSettings
            (fld.withOrder ((getFieldsAsArray flds).filter
              (locMatches (some newLoc))).length) ns)) } := by
    simp only [changeFieldSettings, hnsl, hmove, hsel1, hsel2, hcur,
      Option.getD_some, hnsn]
  -- the persisted collection as a keyed mapping of the final sequence
  have hmergedUid : (mergeNewSettings
      (fld.withOrder ((getFieldsAsArray flds).filter
        (locMatches (some newLoc))).length) ns).uniqueId = some sel.name := by
    rw [Field.uniqueId_mergeNewSettings, Field.uniqueId_withOrder]
    exact hflduid
  have hmergedKey : fieldKey (mergeNewSettings
      (fld.withOrder ((getFieldsAsArray flds).filter
        (locMatches (some newLoc))).length) ns) = sel.name := by
    simp [fieldKey, hmergedUid, hselne]
  have hmergedLoc : (mergeNewSettings
      (fld.withOrder ((getFieldsAsArray flds).filter
        (locMatches (some newLoc))).length) ns).location = some newLoc :=
    Field.location_mergeNewSettings _ hnsl
  have hmergedName : (mergeNewSettings
      (fld.withOrder ((getFieldsAsArray flds).filter
        (locMatches (some newLoc))).length) ns).name = sel.name := by
    rw [Field.name_mergeNewSettings _ hnsn, Field.name_withOrder]
    exact hfldname
  have hmergedOrd : (mergeNewSettings
      (fld.withOrder ((getFieldsAsArray flds).filter
        (locMatches (some newLoc))).length) ns).order
      = ((getFieldsAsArray flds).filter (locMatches (some newLoc))).length := by
    rw [Field.order_mergeNewSettings, Field.order_withOrder]
  have hVSkeysNe : ∀ f ∈ setCorrectOrderForFields (((getFieldsAsArray flds).filter
        (locMatches (some oldLoc))).filter (fun f => f.name ≠ sel.name))
      ++ (setCorrectOrderForFields ((getFieldsAsArray flds).filter
          (locMatches (some newLoc)))
        ++ [mergeNewSettings (fld.withOrder ((getFieldsAsArray flds).filter
            (locMatches (some newLoc))).length) ns]),
      fieldKey f ≠ "" := by
    intro f hf
    rcases List.mem_append.mp hf with hf | hf
    · obtain ⟨f0, hf0, mm, rfl⟩ := mem_setOrdersFrom hf
      rw [fieldKey_withOrder]
      exact hvalsK f0 (hAVals f0 hf0)
    · rcases List.mem_append.mp hf with hf | hf
      · obtain ⟨f0, hf0, mm, rfl⟩ := mem_setOrdersFrom hf
        rw [fieldKey_withOrder]
        exact hvalsK f0 (hnewVals f0 hf0)
      · rw [List.mem_singleton.mp hf, hmergedKey]
        exact hselne
  have hVSkeysNd : ((setCorrectOrderForFields (((getFieldsAsArray flds).filter
        (locMatches (some oldLoc))).filter (fun f => f.name ≠ sel.name))
      ++ (setCorrectOrderForFields ((getFieldsAsArray flds).filter
          (locMatches (some newLoc)))
        ++ [mergeNewSettings (fld.withOrder ((getFieldsAsArray flds).filter
            (locMatches (some newLoc))).length) ns])).map fieldKey).Nodup := by
    rw [List.map_append, List.map_append, hNAkeys]
    rw [show (setCorrectOrderForFields ((getFieldsAsArray flds).filter
        (locMatches (some newLoc)))).map fieldKey
        = ((getFieldsAsArray flds).filter (locMatches (some newLoc))).map fieldKey
      from setOrdersFrom_map_fieldKey 0 _]
    rw [show ([mergeNewSettings (fld.withOrder ((getFieldsAsArray flds).filter
        (locMatches (some newLoc))).length) ns].map fieldKey) = [sel.name] by
      simp [hmergedKey]]
    refine List.Nodup.append hAkeysNd ?_ ?_
    · refine List.Nodup.append hNwkeysNd (List.nodup_singleton _) ?_
      intro x hx1 hx2
      rw [List.mem_singleton.mp hx2] at hx1
      exact hselNotNw hx1
    · intro x hx1 hx2
      rcases List.mem_append.mp hx2 with hx2 | hx2
      · exact hdisjAN x hx1 hx2
      · rw [List.mem_singleton.mp hx2] at hx1
        exact hselNotA hx1
  have hflds2 : setKey
      (getFieldsAsObject
        (setCorrectOrderForFields (((getFieldsAsArray flds).filter
            (locMatches (some oldLoc))).filter (fun f => f.name ≠ sel.name))
          ++ setCorrectOrderForFields
            (((getFieldsAsArray flds).filter (locMatches (some newLoc))) ++ [fld])))
      sel.name
      (mergeNewSettings (fld.withOrder ((getFieldsAsArray flds).filter
        (locMatches (some newLoc))).length) ns)
      = getFieldsAsObject
        (setCorrectOrderForFields (((getFieldsAsArray flds).filter
            (locMatches (some oldLoc))).filter (fun f => f.name ≠ sel.name))
          ++ (setCorrectOrderForFields ((getFieldsAsArray flds).filter
              (locMatches (some newLoc)))
            ++ [mergeNewSettings (fld.withOrder ((getFieldsAsArray flds).filter
                (locMatches (some newLoc))).length) ns])) := by
    rw [getFieldsAsObject_eq hkeysNe hkeysNd,
      getFieldsAsObject_eq hVSkeysNe hVSkeysNd]
    rw [hNBsplit]
    rw [List.map_append, List.map_append, List.map_append, List.map_append]
    rw [show ([fld.withOrder ((getFieldsAsArray flds).filter
        (locMatches (some newLoc))).length].map (fun f => (fieldKey f, f)))
        = [(sel.name, fld.withOrder ((getFieldsAsArray flds).filter
            (locMatches (some newLoc))).length)] by
      simp [hfldmKey]]
    rw [show ([mergeNewSettings (fld.withOrder ((getFieldsAsArray flds).filter
        (locMatches (some newLoc))).length) ns].map (fun f => (fieldKey f, f)))
        = [(sel.name, mergeNewSettings (fld.withOrder ((getFieldsAsArray flds).filter
            (locMatches (some newLoc))).length) ns)] by
      simp [hmergedKey]]
    rw [← List.append_assoc]
    rw [setKey_append_mid ?hnotin]
    case hnotin =>
      rw [show keysOf ((setCorrectOrderForFields (((getFieldsAsArray flds).filter
          (locMatches (some oldLoc))).filter (fun f => f.name ≠ sel.name))).map
            (fun f => (fieldKey f, f))
          ++ (setCorrectOrderForFields ((getFieldsAsArray flds).filter
            (locMatches (some newLoc)))).map (fun f => (fieldKey f, f)))
          = (setCorrectOrderForFields (((getFieldsAsArray flds).filter
              (locMatches (some oldLoc))).filter (fun f => f.name ≠ sel.name))).map fieldKey
            ++ (setCorrectOrderForFields ((getFieldsAsArray flds).filter
              (locMatches (some newLoc)))).map fieldKey by
        simp only [keysOf, List.map_append, List.map_map]
        rfl]
      rw [hNAkeys]
      rw [show (setCorrectOrderForFields ((getFieldsAsArray flds).filter
          (locMatches (some newLoc)))).map fieldKey
          = ((getFieldsAsArray flds).filter (locMatches (some newLoc))).map fieldKey
        from setOrdersFrom_map_fieldKey 0 _]
      intro hx
      rcases List.mem_append.mp hx with hx | hx
      · exact hselNotA hx
      · exact hselNotNw hx
    rw [List.append_assoc]
  have hfinal : changeFieldSettings block sel ns
      = .ok { block with fields := some (getFieldsAsObject
          (setCorrectOrderForFields (((getFieldsAsArray flds).filter
              (locMatches (some oldLoc))).filter (fun f => f.name ≠ sel.name))
            ++ (setCorrectOrderForFields ((getFieldsAsArray flds).filter
                (locMatches (some newLoc)))
              ++ [mergeNewSettings (fld.withOrder ((getFieldsAsArray flds).filter
                  (locMatches (some newLoc))).length) ns]))) } := by
    rw [hsettings, hflds2]
  -- the two groups of the persisted collection
  have hmergedNotOld : locMatches (some oldLoc)
      (mergeNewSettings (fld.withOrder ((getFieldsAsArray flds).filter
        (locMatches (some newLoc))).length) ns) = false :=
    locMatches_false_of_location_ne hmergedLoc hdiff hne
  have hmergedNew : locMatches (some newLoc)
      (mergeNewSettings (fld.withOrder ((getFieldsAsArray flds).filter
        (locMatches (some newLoc))).length) ns) = true :=
    locMatches_of_location_eq hmergedLoc
  have hfilterOld : (setCorrectOrderForFields (((getFieldsAsArray flds).filter
        (locMatches (some oldLoc))).filter (fun f => f.name ≠ sel.name))
      ++ (setCorrectOrderForFields ((getFieldsAsArray flds).filter
          (locMatches (some newLoc)))
        ++ [mergeNewSettings (fld.withOrder ((getFieldsAsArray flds).filter
            (locMatches (some newLoc))).length) ns])).filter
        (locMatches (some oldLoc))
      = setCorrectOrderForFields (((getFieldsAsArray flds).filter
          (locMatches (some oldLoc))).filter (fun f => f.name ≠ sel.name)) := by
    have e1 : (setCorrectOrderForFields (((getFieldsAsArray flds).filter
          (locMatches (some oldLoc))).filter (fun f => f.name ≠ sel.name))).filter
          (locMatches (some oldLoc))
        = setCorrectOrderForFields (((getFieldsAsArray flds).filter
            (locMatches (some oldLoc))).filter (fun f => f.name ≠ sel.name)) := by
      refine List.filter_eq_self.mpr ?_
      intro g hg
      obtain ⟨f0, hf0, j, rfl⟩ := mem_setOrdersFrom hg
      rw [locMatches_withOrder]
      exact hAmatch f0 hf0
    have e2 : (setCorrectOrderForFields ((getFieldsAsArray flds).filter
          (locMatches (some newLoc)))).filter (locMatches (some oldLoc)) = [] := by
      refine List.filter_eq_nil_iff.mpr ?_
      intro g hg
      obtain ⟨f0, hf0, j, rfl⟩ := mem_setOrdersFrom hg
      rw [locMatches_withOrder]
      intro hOldTrue
      exact hexcl2 f0 (hnewVals f0 hf0) ⟨hOldTrue, hnewMatch f0 hf0⟩
    have e3 : ([mergeNewSettings (fld.withOrder ((getFieldsAsArray flds).filter
          (locMatches (some newLoc))).length) ns].filter (locMatches (some oldLoc)))
        = [] := by simp [hmergedNotOld]
    rw [List.filter_append, List.filter_append, e1, e2, e3]
    simp
  have hNAord : (setCorrectOrderForFields (((getFieldsAsArray flds).filter
        (locMatches (some oldLoc))).filter (fun f => f.name ≠ sel.name))).map Field.order
      = List.range' 0 (setCorrectOrderForFields (((getFieldsAsArray flds).filter
          (locMatches (some oldLoc))).filter (fun f => f.name ≠ sel.name))).length := by
    rw [setCorrectOrderForFields_map_order, List.range_eq_range']
    simp only [setCorrectOrderForFields, setOrdersFrom_length]
  have hGoldGrp : (getFieldsAsArray (getFieldsAsObject
      (setCorrectOrderForFields (((getFieldsAsArray flds).filter
          (locMatches (some oldLoc))).filter (fun f => f.name ≠ sel.name))
        ++ (setCorrectOrderForFields ((getFieldsAsArray flds).filter
            (locMatches (some newLoc)))
          ++ [mergeNewSettings (fld.withOrder ((getFieldsAsArray flds).filter
              (locMatches (some newLoc))).length) ns])))).filter
        (locMatches (some oldLoc))
      = setCorrectOrderForFields (((getFieldsAsArray flds).filter
          (locMatches (some oldLoc))).filter (fun f => f.name ≠ sel.name)) := by
    rw [getFieldsAsArray_obj hVSkeysNe hVSkeysNd]
    exact filter_sortByOrder_eq hfilterOld hNAord
  have hfilterNew : (setCorrectOrderForFields (((getFieldsAsArray flds).filter
        (locMatches (some oldLoc))).filter (fun f => f.name ≠ sel.name))
      ++ (setCorrectOrderForFields ((getFieldsAsArray flds).filter
          (locMatches (some newLoc)))
        ++ [mergeNewSettings (fld.withOrder ((getFieldsAsArray flds).filter
            (locMatches (some newLoc))).length) ns])).filter
        (locMatches (some newLoc))
      = setCorrectOrderForFields ((getFieldsAsArray flds).filter
          (locMatches (some newLoc)))
        ++ [mergeNewSettings (fld.withOrder ((getFieldsAsArray flds).filter
            (locMatches (some newLoc))).length) ns] := by
    have e4 : (setCorrectOrderForFields (((getFieldsAsArray flds).filter
          (locMatches (some oldLoc))).filter (fun f => f.name ≠ sel.name))).filter
          (locMatches (some newLoc)) = [] := by
      refine List.filter_eq_nil_iff.mpr ?_
      intro g hg
      obtain ⟨f0, hf0, j, rfl⟩ := mem_setOrdersFrom hg
      rw [locMatches_withOrder]
      intro hNewTrue
      exact hexcl2 f0 (hAVals f0 hf0) ⟨hAmatch f0 hf0, hNewTrue⟩
    have e5 : (setCorrectOrderForFields ((getFieldsAsArray flds).filter
          (locMatches (some newLoc)))).filter (locMatches (some newLoc))
        = setCorrectOrderForFields ((getFieldsAsArray flds).filter
            (locMatches (some newLoc))) := by
      refine List.filter_eq_self.mpr ?_
      intro g hg
      obtain ⟨f0, hf0, j, rfl⟩ := mem_setOrdersFrom hg
      rw [locMatches_withOrder]
      exact hnewMatch f0 hf0
    have e6 : ([mergeNewSettings (fld.withOrder ((getFieldsAsArray flds).filter
          (locMatches (some newLoc))).length) ns].filter (locMatches (some newLoc)))
        = [mergeNewSettings (fld.withOrder ((getFieldsAsArray flds).filter
            (locMatches (some newLoc))).length) ns] := by simp [hmergedNew]
    rw [List.filter_append, List.filter_append, e4, e5, e6]
    simp
  have hNBord : ((setCorrectOrderForFields ((getFieldsAsArray flds).filter
        (locMatches (some newLoc)))
      ++ [mergeNewSettings (fld.withOrder ((getFieldsAsArray flds).filter
          (locMatches (some newLoc))).length) ns]).map Field.order)
      = List.range' 0 ((setCorrectOrderForFields ((getFieldsAsArray flds).filter
          (locMatches (some newLoc)))
        ++ [mergeNewSettings (fld.withOrder ((getFieldsAsArray flds).filter
            (locMatches (some newLoc))).length) ns]).length) := by
    rw [List.map_append, setCorrectOrderForFields_map_order, List.range_eq_range']
    simp only [List.map_cons, List.map_nil, hmergedOrd, List.length_append,
      setCorrectOrderForFields, setOrdersFrom_length, List.length_singleton]
    rw [List.range'_1_concat]
    simp
  have hGnewGrp : (getFieldsAsArray (getFieldsAsObject
      (setCorrectOrderForFields (((getFieldsAsArray flds).filter
          (locMatches (some oldLoc))).filter (fun f => f.name ≠ sel.name))
        ++ (setCorrectOrderForFields ((getFieldsAsArray flds).filter
            (locMatches (some newLoc)))
          ++ [mergeNewSettings (fld.withOrder ((getFieldsAsArray flds).filter
              (locMatches (some newLoc))).length) ns])))).filter
        (locMatches (some newLoc))
      = setCorrectOrderForFields ((getFieldsAsArray flds).filter
          (locMatches (some newLoc)))
        ++ [mergeNewSettings (fld.withOrder ((getFieldsAsArray flds).filter
            (locMatches (some newLoc))).length) ns] := by
    rw [getFieldsAsArray_obj hVSkeysNe hVSkeysNd]
    exact filter_sortByOrder_eq hfilterNew hNBord
  refine ⟨_, hfinal,
    ⟨setCorrectOrderForFields (((getFieldsAsArray flds).filter
        (locMatches (some oldLoc))).filter (fun f => f.name ≠ sel.name)), ?_, ?_, ?_⟩,
    ⟨setCorrectOrderForFields ((getFieldsAsArray flds).filter
        (locMatches (some newLoc)))
      ++ [mergeNewSettings (fld.withOrder ((getFieldsAsArray flds).filter
          (locMatches (some newLoc))).length) ns], ?_, ?_, ?_⟩⟩
  · simp only [getFieldsForLocation]
    rw [hGoldGrp]
  · rw [show (setCorrectOrderForFields (((getFieldsAsArray flds).filter
        (locMatches (some oldLoc))).filter (fun f => f.name ≠ sel.name))).map Field.name
        = (((getFieldsAsArray flds).filter
            (locMatches (some oldLoc))).filter (fun f => f.name ≠ sel.name)).map Field.name
      from setOrdersFrom_map_name 0 _]
    intro hx
    simp only [List.mem_map] at hx
    obtain ⟨g, hg, hgname⟩ := hx
    exact hAname g hg hgname
  · rw [hNAord, List.range_eq_range']
  · simp only [getFieldsForLocation]
    rw [hGnewGrp]
  · rw [List.map_append]
    refine List.mem_append.mpr (Or.inr ?_)
    simp [hmergedName]
  · rw [hNBord, List.range_eq_range']


/-- C3 witness: moving field `a` of the sample block from the editor to
the inspector — afterwards the editor group no longer contains `a`, the
inspector group does, and both groups carry dense zero-based orders. -/
theorem C3_witness :
    ∃ flds2, changeFieldSettings blockAB { uniqueId := "a", name := "a" }
        { location := some ("inspector") }
        = .ok { blockAB with fields := some flds2 } ∧
      (∃ Gold, getFieldsForLocation { blockAB with fields := some flds2 }
          (some ("editor")) none = .ok (some Gold) ∧
        ("a" : String) ∉ Gold.map Field.name ∧
        Gold.map Field.order = List.range Gold.length) ∧
      (∃ Gnew, getFieldsForLocation { blockAB with fields := some flds2 }
          (some ("inspector")) none = .ok (some Gnew) ∧
        ("a" : String) ∈ Gnew.map Field.name ∧
        Gnew.map Field.order = List.range Gnew.length) :=
  C3_location_move blockAB abFields { uniqueId := "a", name := "a" }
    { location := some ("inspector") } (plainField ("a") (some ("editor")) 0)
    ("editor") ("inspector") rfl (by decide) rfl rfl rfl rfl rfl rfl
    (by decide) (by decide) (by decide)

end GCB
